/-
Verification of the server-farm membership and synchronization engine.

Shallow embedding of the merge operators, delta filters, peer RPC
verification chain and handlers from:
  src/services/peer_service.py  (merges, filters, handle_sync, handle_heartbeat)
  src/api/v1/peer.py            (_verify_node_signature, join_request, endpoints)
  src/api/v1/nodes.py           (approve_node)
  src/api/v1/snippets.py        (list_snippets)
  src/services/storage.py       (FileStore.read / FileStore.update)
  src/core/node.py              (NodeIdentity.verify_signature)

Conventions of the embedding:
- Wall-clock timestamps (Python floats) are modelled as `Int`.
- JSON dictionaries keyed by node id (the `nodes` and `states` documents)
  are modelled as maps `String → Option _`; Python `dict` equality ignores
  insertion order, so the pointwise-function model matches document
  equality, and the per-key loops of the source touch each key once.
- A missing dict field read through `.get(k, d)` is modelled by storing the
  default directly (`trust_status` defaults to `""`, numbers to `0`).
- The `trust_status` string values "self" / "pending" / "trusted" /
  "waiting_approval" / "kicked" follow the `TrustStatus` enum referenced
  throughout `src` (its literal values appear in `src/api/v1/nodes.py`,
  `trust_order`, and in the wire statuses of `src/api/v1/peer.py`).
-/

import Mathlib

namespace ServerFarm

/-- A chat message (element of the `chat` list).  The merge in
`_merge_chat` reads only `id` and `timestamp`; `node_id` and `content`
stand for the rest of the payload so distinct messages are distinct. -/
structure ChatMsg where
  id : String
  node_id : String
  content : String
  timestamp : Int
deriving DecidableEq, Repr

/-- First pass of `_merge_chat` (src/services/peer_service.py:917-924):
walk `local + remote`, keeping a message when its id is non-empty and not
seen yet. -/
def dedupChat (seen : List String) : List ChatMsg → List ChatMsg
  | [] => []
  | m :: t =>
      if m.id ≠ "" ∧ m.id ∉ seen then m :: dedupChat (m.id :: seen) t
      else dedupChat seen t

/-- Stable insertion step of the ascending sort by `timestamp`
(`merged.sort(key=lambda m: m.get("timestamp", 0))`). -/
def insertTS (m : ChatMsg) : List ChatMsg → List ChatMsg
  | [] => [m]
  | h :: t => if h.timestamp < m.timestamp then h :: insertTS m t else m :: h :: t

/-- Stable ascending sort by `timestamp`, the semantics of the stable Python
`list.sort` with this key. -/
def sortTS : List ChatMsg → List ChatMsg
  | [] => []
  | m :: t => insertTS m (sortTS t)

/-- `_merge_chat` (src/services/peer_service.py:915-932): dedupe
`local + remote` by id, sort by timestamp, keep the newest 500
(`merged[-500:]`). -/
def mergeChat (loc rem : List ChatMsg) : List ChatMsg :=
  let merged := dedupChat [] (loc ++ rem)
  let sorted := sortTS merged
  if 500 < sorted.length then sorted.drop (sorted.length - 500) else sorted

/-- A snippet (element of the `snippets` list).  The merge reads `id` and
`updated_at`, the final sort reads `created_at`, the read API reads
`_deleted` (field `deleted` here) and `category`; `title` stands for the
remaining payload. -/
structure Snippet where
  id : String
  title : String
  category : String
  deleted : Bool
  created_at : Int
  updated_at : Int
deriving DecidableEq, Repr

/-- Insertion-ordered map as built by a Python `dict`: assignment to an
existing key replaces the value in place, a new key is appended. -/
def setEntry : List (String × Snippet) → String → Snippet → List (String × Snippet)
  | [], k, v => [(k, v)]
  | (k', v') :: t, k, v =>
      if k' = k then (k, v) :: t else (k', v') :: setEntry t k v

/-- Lookup in the insertion-ordered map. -/
def lookupEntry : List (String × Snippet) → String → Option Snippet
  | [], _ => none
  | (k', v') :: t, k => if k' = k then some v' else lookupEntry t k

/-- First loop of `_merge_snippets` (src/services/peer_service.py:938-941):
`snippets_map[sid] = snippet` for each local snippet with a non-empty id. -/
def buildLocalSnips (m : List (String × Snippet)) : List Snippet → List (String × Snippet)
  | [] => m
  | s :: t => buildLocalSnips (if s.id = "" then m else setEntry m s.id s) t

/-- Second loop of `_merge_snippets` (src/services/peer_service.py:943-951):
a remote snippet with a fresh id is inserted, an existing id is replaced
only when the remote `updated_at` is strictly greater. -/
def mergeRemoteSnips (m : List (String × Snippet)) : List Snippet → List (String × Snippet)
  | [] => m
  | s :: t =>
      mergeRemoteSnips
        (if s.id = "" then m
         else match lookupEntry m s.id with
           | none => m ++ [(s.id, s)]
           | some old => if old.updated_at < s.updated_at then setEntry m s.id s else m)
        t

/-- Stable insertion step of the ascending sort by `created_at`. -/
def insertCreated (s : Snippet) : List Snippet → List Snippet
  | [] => [s]
  | h :: t => if h.created_at < s.created_at then h :: insertCreated s t else s :: h :: t

/-- Stable ascending sort by `created_at`
(`result.sort(key=lambda s: s.get("created_at", 0))`). -/
def sortCreated : List Snippet → List Snippet
  | [] => []
  | s :: t => insertCreated s (sortCreated t)

/-- `_merge_snippets` (src/services/peer_service.py:934-955). -/
def mergeSnippets (loc rem : List Snippet) : List Snippet :=
  sortCreated ((mergeRemoteSnips (buildLocalSnips [] loc) rem).map Prod.snd)

/-- A record of the `nodes` document.  Field defaults mirror the `.get`
defaults of the source (`trust_status` → `""`, timestamps → `0`). -/
structure NodeRec where
  node_id : String
  name : String
  mode : String
  connectable : Bool
  host : String
  port : Int
  public_url : String
  registered_at : Int
  public_key : String
  trust_status : String
  kicked_at : Int
deriving DecidableEq, Repr

/-- The `nodes` document: a JSON object keyed by node id. -/
def NodesDoc := String → Option NodeRec

/-- Per-key body of `_merge_nodes` when both sides hold a record
(src/services/peer_service.py:859-900). -/
def mergeNodeRec (li ri : NodeRec) : NodeRec :=
  if li.trust_status = "self" then li
  else if ri.trust_status = "kicked" then
    (if li.trust_status ≠ "kicked" then ri
     else if li.kicked_at < ri.kicked_at then ri else li)
  else if li.trust_status = "kicked" then li
  else if ri.trust_status = "trusted" ∧ li.trust_status = "pending" then ri
  else if ri.trust_status = "trusted" ∧ li.trust_status = "waiting_approval" then ri
  else
    let ri' := if ri.trust_status = "self" then { ri with trust_status := "trusted" } else ri
    if li.registered_at < ri'.registered_at then
      (if li.trust_status ≠ "" ∧ ri.trust_status ≠ "kicked" ∧ ri.trust_status ≠ "trusted"
       then { ri' with trust_status := li.trust_status } else ri')
    else li

/-- Per-key action of `_merge_nodes`: keys absent from `remote` keep the
local record; keys absent from `local` adopt the remote record, rewriting
a remote `self` status to `trusted` (src/services/peer_service.py:852-858). -/
def mergeNodesAt : Option NodeRec → Option NodeRec → Option NodeRec
  | l, none => l
  | none, some ri =>
      some (if ri.trust_status = "self" then { ri with trust_status := "trusted" } else ri)
  | some li, some ri => some (mergeNodeRec li ri)

/-- `_merge_nodes` (src/services/peer_service.py:837-902), as a map merge:
`merged = dict(local)` updated key by key from `remote`. -/
def mergeNodes (loc rem : NodesDoc) : NodesDoc :=
  fun k => mergeNodesAt (loc k) (rem k)

/-- A record of the `states` document; `system_info` is an unstructured payload. -/
structure StateRec where
  node_id : String
  status : String
  last_seen : Int
  system_info : String
  version : Int
deriving DecidableEq, Repr

/-- The `states` document. -/
def StatesDoc := String → Option StateRec

/-- Per-key action of `_merge_states`: the remote entry wins only when its
`last_seen` is strictly greater (src/services/peer_service.py:904-913). -/
def mergeStatesAt : Option StateRec → Option StateRec → Option StateRec
  | l, none => l
  | none, some ri => some ri
  | some li, some ri => some (if li.last_seen < ri.last_seen then ri else li)

/-- `_merge_states` (src/services/peer_service.py:904-913). -/
def mergeStates (loc rem : StatesDoc) : StatesDoc :=
  fun k => mergeStatesAt (loc k) (rem k)

/-- The four documents handled by the sync engine. -/
structure Docs where
  nodes : NodesDoc
  states : StatesDoc
  chat : List ChatMsg
  snippets : List Snippet

/-- `_filter_nodes_since` (src/services/peer_service.py:97-104): everything
is returned when `since <= 0`, else the records with
`registered_at > since`. -/
def filterNodesSince (nodes : NodesDoc) (since : Int) : NodesDoc :=
  if since ≤ 0 then nodes
  else fun k => match nodes k with
    | some r => if since < r.registered_at then some r else none
    | none => none

/-- `_filter_states_since` (src/services/peer_service.py:106-113). -/
def filterStatesSince (states : StatesDoc) (since : Int) : StatesDoc :=
  if since ≤ 0 then states
  else fun k => match states k with
    | some s => if since < s.last_seen then some s else none
    | none => none

/-- `_filter_chat_since` (src/services/peer_service.py:115-119). -/
def filterChatSince (chat : List ChatMsg) (since : Int) : List ChatMsg :=
  if since ≤ 0 then chat else chat.filter (fun m => since < m.timestamp)

/-- `_filter_snippets_since` (src/services/peer_service.py:121-125). -/
def filterSnippetsSince (snippets : List Snippet) (since : Int) : List Snippet :=
  if since ≤ 0 then snippets else snippets.filter (fun s => since < s.updated_at)

/-- A `/peer/sync` request body
(`{node_id, since, nodes, states, chat, snippets}`). -/
structure SyncRequest where
  node_id : String
  since : Int
  nodes : NodesDoc
  states : StatesDoc
  chat : List ChatMsg
  snippets : List Snippet

/-- A `/peer/sync` response body. -/
structure SyncResponse where
  node_id : String
  current_version : Int
  nodes : NodesDoc
  states : StatesDoc
  chat : List ChatMsg
  snippets : List Snippet

/-- `handle_sync` (src/services/peer_service.py:990-1030): merge the four
incoming deltas into the local documents, write the merged documents back,
and answer with the merged documents filtered by the `since` of the request.
The returned pair is (documents written back, response). -/
def handleSync (selfId : String) (version : Int) (st : Docs) (req : SyncRequest) :
    Docs × SyncResponse :=
  let merged : Docs :=
    { nodes := mergeNodes st.nodes req.nodes
      states := mergeStates st.states req.states
      chat := mergeChat st.chat req.chat
      snippets := mergeSnippets st.snippets req.snippets }
  (merged,
   { node_id := selfId
     current_version := version
     nodes := filterNodesSince merged.nodes req.since
     states := filterStatesSince merged.states req.since
     chat := filterChatSince merged.chat req.since
     snippets := filterSnippetsSince merged.snippets req.since })

/-- Result of the approve endpoint: an error / informational body, or
success. -/
inductive ApproveResult
  | errCannotApproveSelf
  | errNotFound
  | msgAlreadyTrusted
  | errKicked
  | success
deriving DecidableEq, Repr

/-- `approve_node` (src/api/v1/nodes.py:264-299): reject the own id of the node,
missing records, already-`trusted` and `kicked` records; any other
existing record is set to `trusted` with `registered_at = now`. -/
def approveNode (now : Int) (selfId : String) (nodes : NodesDoc) (node_id : String) :
    ApproveResult × NodesDoc :=
  if node_id = selfId then (.errCannotApproveSelf, nodes)
  else match nodes node_id with
    | none => (.errNotFound, nodes)
    | some info =>
      if info.trust_status = "trusted" then (.msgAlreadyTrusted, nodes)
      else if info.trust_status = "kicked" then (.errKicked, nodes)
      else (.success,
        fun k => if k = node_id
          then some { info with trust_status := "trusted", registered_at := now }
          else nodes k)

/-- A `/peer/join-request` body; defaults mirror the `.get`
defaults (src/api/v1/peer.py:167-178). -/
structure JoinReq where
  node_id : String
  public_key : String
  name : String
  mode : String
  connectable : Bool
  host : String
  port : Int
  public_url : String
deriving Repr

/-- Status answered by `/peer/join-request`. -/
inductive JoinReqResult
  | badRequest
  | statusKicked
  | statusTrusted
  | statusPendingExisting
  | statusPendingSaved
deriving DecidableEq, Repr

/-- `join_request` (src/api/v1/peer.py:111-194): an unknown sender is saved
as `pending`; an existing record answers by status — but only the
`kicked` / `trusted` / `pending` statuses are checked before the handler
falls through and overwrites the stored record with a fresh `pending`
entry. -/
def joinRequest (now : Int) (nodes : NodesDoc) (req : JoinReq) :
    JoinReqResult × NodesDoc :=
  if req.node_id = "" ∨ req.public_key = "" then (.badRequest, nodes)
  else
    let entry : NodeRec :=
      { node_id := req.node_id
        name := if req.name = "" then req.node_id else req.name
        mode := req.mode
        connectable := req.connectable
        host := req.host
        port := req.port
        public_url := req.public_url
        registered_at := now
        public_key := req.public_key
        trust_status := "pending"
        kicked_at := 0 }
    let save : NodesDoc := fun k => if k = req.node_id then some entry else nodes k
    match nodes req.node_id with
    | some existing =>
      if existing.trust_status = "kicked" then (.statusKicked, nodes)
      else if existing.trust_status = "trusted" then (.statusTrusted, nodes)
      else if existing.trust_status = "pending" then (.statusPendingExisting, nodes)
      else (.statusPendingSaved, save)
    | none => (.statusPendingSaved, save)

/-- `list_snippets` (src/api/v1/snippets.py:27-46) without the HTTP layer:
drop tombstones, filter by category when given, newest `created_at` first. -/
def insertCreatedDesc (s : Snippet) : List Snippet → List Snippet
  | [] => [s]
  | h :: t => if s.created_at < h.created_at then h :: insertCreatedDesc s t
              else s :: h :: t

/-- Stable descending sort by `created_at`
(`snippets.sort(key=..., reverse=True)`). -/
def sortCreatedDesc : List Snippet → List Snippet
  | [] => []
  | s :: t => insertCreatedDesc s (sortCreatedDesc t)

/-- The snippets read API (src/api/v1/snippets.py:27-46). -/
def listSnippets (snippets : List Snippet) (category : String) : List Snippet :=
  let s1 := snippets.filter (fun s => !s.deleted)
  let s2 := if category ≠ "" then s1.filter (fun s => s.category = category) else s1
  sortCreatedDesc s2

/-- URL computed for a peer record inside
`_discover_trusted_connectable_peers`
(src/services/peer_service.py:409-411): `public_url`, or
`http://host:port` when a host is present, else empty. -/
def peerUrlOf (n : NodeRec) : String :=
  if n.public_url ≠ "" then n.public_url
  else if n.host ≠ "" then "http://" ++ n.host ++ ":" ++ toString n.port
  else ""

/-- `_discover_trusted_connectable_peers`
(src/services/peer_service.py:391-414), over the value list of the `nodes`
document: keep records that are not the local node, are `full`/`temp_full`,
connectable, `trusted`, and have a non-empty URL. -/
def discoverTrustedConnectablePeers (selfId : String) (nodes : List NodeRec) :
    List NodeRec :=
  nodes.filter (fun n =>
    n.node_id ≠ selfId ∧ (n.mode = "full" ∨ n.mode = "temp_full") ∧
    n.connectable = true ∧ n.trust_status = "trusted" ∧ peerUrlOf n ≠ "")

/-- The cryptographic and encoding primitives used by the signature chain,
kept abstract: `sha256Hex` is `hashlib.sha256(body).hexdigest()`,
`signMessage` is the canonical sorted-keys JSON object
`(body_hash, node_id, timestamp)` serialized by `json.dumps`, and
`ecdsaVerify pub msg sig` is secp256k1 verification including key and
base64 decoding (any decoding exception yields `false`, matching the
`except` clause of `NodeIdentity.verify_signature`).  `parseFloat` is
Python `float(...)` on the timestamp header (`none` models
`ValueError`/`TypeError`). -/
structure Crypto where
  sha256Hex : List Nat → String
  signMessage : (node_id timestamp body_hash : String) → String
  ecdsaVerify : (public_key_hex message signature_b64 : String) → Bool
  parseFloat : String → Option Int

/-- `NodeIdentity.verify_signature` (src/core/node.py:278-326): reject
unparseable or stale timestamps (`|now - ts| > max_age`, default 60 s),
then verify the secp256k1 signature over the canonical message. -/
def verifySignatureStatic (c : Crypto) (now : Int)
    (node_id timestamp body_hash signature_b64 public_key_hex : String)
    (max_age : Int) : Bool :=
  match c.parseFloat timestamp with
  | none => false
  | some ts =>
    if max_age < |now - ts| then false
    else c.ecdsaVerify public_key_hex (c.signMessage node_id timestamp body_hash)
           signature_b64

/-- The signature headers of an inbound request; `""` models a missing
header. -/
structure SigHeaders where
  xNodeId : String
  xNodeTs : String
  xBodyHash : String
  xNodeSig : String
deriving Repr

/-- The sender id used by `_verify_node_signature`: the `X-Node-Id` header,
falling back to the `node_id` of the body. -/
def senderOf (h : SigHeaders) (dataNodeId : String) : String :=
  if h.xNodeId ≠ "" then h.xNodeId else dataNodeId

/-- `_verify_node_signature` (src/api/v1/peer.py:28-93): check the headers
are present, the body hash matches, the sender is a known node that is
neither kicked nor untrusted and has a public key, then verify the
signature.  Returns `(is_valid, error_message)`. -/
def verifyNodeSignature (c : Crypto) (now : Int) (nodes : NodesDoc)
    (h : SigHeaders) (dataNodeId : String) (body : List Nat) : Bool × String :=
  let remote := senderOf h dataNodeId
  if remote = "" then (false, "missing node id")
  else if h.xNodeTs = "" ∨ h.xBodyHash = "" ∨ h.xNodeSig = "" then
    (false, "missing signature headers")
  else if h.xBodyHash ≠ c.sha256Hex body then (false, "body hash mismatch")
  else match nodes remote with
    | none => (false, "unknown node")
    | some rn =>
      if rn.trust_status = "kicked" then (false, "node kicked")
      else if rn.trust_status ≠ "trusted" ∧ rn.trust_status ≠ "self" then
        (false, "node not trusted")
      else if rn.public_key = "" then (false, "node has no public key")
      else if verifySignatureStatic c now remote h.xNodeTs h.xBodyHash h.xNodeSig
                rn.public_key 60
        then (true, "")
        else (false, "signature invalid")

/-- Outcome of a signed peer endpoint: HTTP 403 with an error body, or the
response of the handler. -/
inductive Endpoint (α : Type)
  | forbidden (msg : String)
  | ok (resp : α)
deriving DecidableEq, Repr

/-- `POST /peer/sync` (src/api/v1/peer.py:326-346): verify the signature
against the stored nodes document, then run `handle_sync`; on failure
answer 403 and leave every document unchanged. -/
def peerSyncEndpoint (c : Crypto) (now : Int) (selfId : String) (version : Int)
    (st : Docs) (h : SigHeaders) (req : SyncRequest) (body : List Nat) :
    Docs × Endpoint SyncResponse :=
  let v := verifyNodeSignature c now st.nodes h req.node_id body
  if v.1 then
    let (st', resp) := handleSync selfId version st req
    (st', .ok resp)
  else (st, .forbidden v.2)

/-- A `/peer/heartbeat` request body; the task fields are handled by the
out-of-scope task service. -/
structure HeartbeatReq where
  node_id : String
  mode : String
  since : Int
  system_info : String

/-- A `/peer/heartbeat` response body (task list omitted: the task service
is out of scope, `pending_tasks = []` when it is absent). -/
structure HeartbeatResp where
  accepted : Bool
  nodes : NodesDoc
  states : StatesDoc
  chat : List ChatMsg
  snippets : List Snippet
  current_version : Int

/-- `handle_heartbeat` (src/services/peer_service.py:1047-1108): record the
fresh state of the relay, auto-insert an unknown relay as a `trusted` record,
and answer with the resulting documents filtered by the `since` field of the request and
`since`. -/
def handleHeartbeat (now : Int) (version : Int) (st : Docs) (req : HeartbeatReq) :
    Docs × HeartbeatResp :=
  let state : StateRec :=
    { node_id := req.node_id, status := "online", last_seen := now
      system_info := req.system_info, version := version }
  let states1 : StatesDoc := fun k => if k = req.node_id then some state else st.states k
  let nodes1 : NodesDoc :=
    match st.nodes req.node_id with
    | some _ => st.nodes
    | none => fun k =>
        if k = req.node_id then
          some { node_id := req.node_id, name := req.node_id, mode := req.mode
                 connectable := false, host := "", port := 8300, public_url := ""
                 registered_at := now, public_key := "", trust_status := "trusted"
                 kicked_at := 0 }
        else st.nodes k
  ({ st with nodes := nodes1, states := states1 },
   { accepted := true
     nodes := filterNodesSince nodes1 req.since
     states := filterStatesSince states1 req.since
     chat := filterChatSince st.chat req.since
     snippets := filterSnippetsSince st.snippets req.since
     current_version := version })

/-- `POST /peer/heartbeat` (src/api/v1/peer.py:349-369). -/
def peerHeartbeatEndpoint (c : Crypto) (now : Int) (version : Int) (st : Docs)
    (h : SigHeaders) (req : HeartbeatReq) (body : List Nat) :
    Docs × Endpoint HeartbeatResp :=
  let v := verifyNodeSignature c now st.nodes h req.node_id body
  if v.1 then
    let (st', resp) := handleHeartbeat now version st req
    (st', .ok resp)
  else (st, .forbidden v.2)

/-- A `/peer/chat-push` request body (`message` is `none` when absent). -/
structure ChatPushReq where
  node_id : String
  message : Option ChatMsg

/-- `POST /peer/chat-push` (src/api/v1/peer.py:276-323): verify, reject a
missing or id-less message with `ok = false`, then append the message
unless its id is already present, capping the list at 500. -/
def chatPushEndpoint (c : Crypto) (now : Int) (st : Docs) (h : SigHeaders)
    (req : ChatPushReq) (body : List Nat) : Docs × Endpoint Bool :=
  let v := verifyNodeSignature c now st.nodes h req.node_id body
  if v.1 then
    match req.message with
    | none => (st, .ok false)
    | some msg =>
      if msg.id = "" then (st, .ok false)
      else
        let messages := st.chat
        let messages1 :=
          if msg.id ∈ messages.map (fun m => m.id) then messages
          else
            let appended := messages ++ [msg]
            if 500 < appended.length then appended.drop (appended.length - 500)
            else appended
        ({ st with chat := messages1 }, .ok true)
  else (st, .forbidden v.2)

/-- A JSON value, as stored by `FileStore`; `Json.obj []` is the empty
object `\x7b\x7d`. -/
inductive Json
  | null
  | bool (b : Bool)
  | num (n : Int)
  | str (s : String)
  | arr (items : List Json)
  | obj (fields : List (String × Json))

/-- `FileStore.read` (src/services/storage.py:49-73): `file` is the raw
content of the backing file (`none` when missing), `parse` is `json.load`
(`none` models `JSONDecodeError`/`OSError`).  A missing or unreadable file
yields the supplied default, with a `None` default mapped to the empty
object. -/
def fileStoreRead (parse : String → Option Json) (file : Option String)
    (default : Option Json) : Json :=
  match file with
  | none => default.getD (Json.obj [])
  | some content =>
    match parse content with
    | some data => data
    | none => default.getD (Json.obj [])

/-- `FileStore.update` (src/services/storage.py:121-169): read the current
value (same fallback as `read`), apply the updater, serialize the result
over the file (`dump` is `json.dump` plus the atomic rename).  Returns the
updated value and the new file content. -/
def fileStoreUpdate (parse : String → Option Json) (dump : Json → String)
    (file : Option String) (updater : Json → Json) (default : Option Json) :
    Json × Option String :=
  let data :=
    match file with
    | none => default.getD (Json.obj [])
    | some content =>
      match parse content with
      | some d => d
      | none => default.getD (Json.obj [])
  let newData := updater data
  (newData, some (dump newData))

/-- A record waiting for approval by the remote operator. -/
def waitingRec : NodeRec :=
  { node_id := "w", name := "w", mode := "full", connectable := false
    host := "h", port := 8300, public_url := "", registered_at := 10
    public_key := "pk", trust_status := "waiting_approval", kicked_at := 0 }

/-- The own record of the local node, as written by `_register_self`. -/
def selfRec : NodeRec :=
  { node_id := "me", name := "me", mode := "full", connectable := true
    host := "h", port := 8300, public_url := "http://me", registered_at := 10
    public_key := "mypk", trust_status := "self", kicked_at := 0 }

/-- A nodes document holding only the local self record. -/
def selfOnlyDoc : NodesDoc := fun k => if k = "me" then some selfRec else none

/-- The nodes-snapshot adoption step of the join poll loop
(src/services/peer_service.py:333-342): entries other than the local id
are adopted as `trusted` when absent locally or locally
`waiting_approval`; everything else, the local self record included, is
left alone. -/
def adoptJoinSnapshot (selfId : String) (loc : NodesDoc) (snapshot : NodesDoc) :
    NodesDoc :=
  fun k =>
    if k = selfId then loc k
    else match snapshot k with
      | none => loc k
      | some ninfo =>
        match loc k with
        | none => some { ninfo with trust_status := "trusted" }
        | some existing =>
          if existing.trust_status = "waiting_approval"
          then some { ninfo with trust_status := "trusted" }
          else loc k

/-- A trusted record whose `registered_at` is `0` (the `.get` default for a
record that never carried the field). -/
def zeroRegRec : NodeRec :=
  { node_id := "z", name := "z", mode := "full", connectable := true
    host := "h", port := 8300, public_url := "", registered_at := 0
    public_key := "pk", trust_status := "trusted", kicked_at := 0 }

/-- A local document set holding only `zeroRegRec`. -/
def zeroRegDocs : Docs :=
  { nodes := fun k => if k = "z" then some zeroRegRec else none
    states := fun _ => none, chat := [], snippets := [] }

/-- An otherwise empty sync request with `since = 0`. -/
def sinceZeroReq : SyncRequest :=
  { node_id := "other", since := 0, nodes := fun _ => none
    states := fun _ => none, chat := [], snippets := [] }

/-- The seen-id set accumulated by `dedupChat` while walking a list: the
initial set plus the ids it keeps. -/
def seenAfter (seen : List String) : List ChatMsg → List String
  | [] => seen
  | m :: t =>
      if m.id ≠ "" ∧ m.id ∉ seen then seenAfter (m.id :: seen) t
      else seenAfter seen t

/-- Chat fixture: id "a" at timestamp 2. -/
def cxA : ChatMsg := ⟨"a", "n", "x", 2⟩

/-- Chat fixture: id "b" at timestamp 1. -/
def cxB : ChatMsg := ⟨"b", "n", "y", 1⟩

/-- Chat fixture: id "a", content "1", timestamp 1. -/
def cxA1 : ChatMsg := ⟨"a", "n", "1", 1⟩

/-- Chat fixture: id "a", content "2", timestamp 1. -/
def cxA2 : ChatMsg := ⟨"a", "n", "2", 1⟩

/-- States fixture: `last_seen` 5, online. -/
def cstA : StateRec := ⟨"k", "online", 5, "", 1⟩

/-- States fixture: `last_seen` 5, offline. -/
def cstB : StateRec := ⟨"k", "offline", 5, "", 1⟩

/-- States document holding `cstA` under "k". -/
def stX : StatesDoc := fun k => if k = "k" then some cstA else none

/-- States document holding `cstB` under "k". -/
def stY : StatesDoc := fun k => if k = "k" then some cstB else none

/-- Nodes fixture builder over a fixed key "k". -/
def nodeFix (trust : String) (reg : Int) (nm : String) : NodeRec :=
  ⟨"k", nm, "full", true, "h", 1, "", reg, "pk", trust, 0⟩

/-- Nodes document with a single record under "k". -/
def nodeDoc (r : NodeRec) : NodesDoc := fun k => if k = "k" then some r else none

/-- Pending record, `registered_at` 5. -/
def dP : NodesDoc := nodeDoc (nodeFix "pending" 5 "A")

/-- Waiting-approval record, `registered_at` 5. -/
def dW : NodesDoc := nodeDoc (nodeFix "waiting_approval" 5 "B")

/-- Trusted record, `registered_at` 100. -/
def dA : NodesDoc := nodeDoc (nodeFix "trusted" 100 "A")

/-- Pending record, `registered_at` 200. -/
def dB : NodesDoc := nodeDoc (nodeFix "pending" 200 "B")

/-- Trusted record, `registered_at` 150. -/
def dC : NodesDoc := nodeDoc (nodeFix "trusted" 150 "C")

/-- Snippet fixture: id "u", created 2. -/
def su : Snippet := ⟨"u", "u1", "note", false, 2, 1⟩

/-- Snippet fixture: id "v", created 1. -/
def sv : Snippet := ⟨"v", "v1", "note", false, 1, 1⟩

/-- Snippet fixture: id "u" again, created 1, updated 5. -/
def su2 : Snippet := ⟨"u", "u2", "note", false, 1, 5⟩

/-- Snippet fixture: id "u", payload "one". -/
def sp1 : Snippet := ⟨"u", "one", "note", false, 1, 1⟩

/-- Snippet fixture: id "u", payload "two". -/
def sp2 : Snippet := ⟨"u", "two", "note", false, 1, 1⟩


/-- The join request carrying the own id of the local node and a foreign
public key. -/
def evilJoinReq : JoinReq :=
  { node_id := "me", public_key := "evilpk", name := "me", mode := "full"
    connectable := false, host := "x", port := 8300, public_url := "" }


-- ──────────────────────────────────────────
-- C8: peer discovery filter
-- ──────────────────────────────────────────

/-- A connectable, trusted full record with no `public_url` and no `host`:
it satisfies every condition named by the discovery spec but is skipped by
the code because its computed URL is empty. -/
def urlLessPeer : NodeRec :=
  { node_id := "n2", name := "n2", mode := "full", connectable := true
    host := "", port := 8300, public_url := "", registered_at := 10
    public_key := "pk", trust_status := "trusted", kicked_at := 0 }

/-- C8, counterexample: `discover_trusted_connectable_peers` does not
return every record with `mode ∈ {full, temp_full}`, `connectable`,
`trusted` and a foreign id: a record with an empty `public_url` and empty
`host` is dropped. -/
theorem discover_counterexample :
    (urlLessPeer.mode = "full" ∧ urlLessPeer.connectable = true ∧
     urlLessPeer.trust_status = "trusted" ∧ urlLessPeer.node_id ≠ "n1") ∧
    urlLessPeer ∉ discoverTrustedConnectablePeers "n1" [urlLessPeer] := by
  refine ⟨⟨rfl, rfl, rfl, by decide⟩, ?_⟩
  simp [discoverTrustedConnectablePeers, peerUrlOf, urlLessPeer]

/-- C8, amended: membership in the discovery result is exactly the four
four conditions plus a non-empty peer URL (a `public_url`, or a host to
build `http://host:port` from). -/
theorem discover_members (selfId : String) (nodes : List NodeRec) (n : NodeRec) :
    n ∈ discoverTrustedConnectablePeers selfId nodes ↔
      n ∈ nodes ∧ n.node_id ≠ selfId ∧ (n.mode = "full" ∨ n.mode = "temp_full") ∧
      n.connectable = true ∧ n.trust_status = "trusted" ∧ peerUrlOf n ≠ "" := by
  simp [discoverTrustedConnectablePeers, List.mem_filter]

-- ──────────────────────────────────────────
-- C9: id-less entries are discarded by the chat and snippet merges
-- ──────────────────────────────────────────

/-- Every message kept by the dedup pass has a non-empty id. -/
theorem dedupChat_id_ne (l : List ChatMsg) :
    ∀ (seen : List String), ∀ m ∈ dedupChat seen l, m.id ≠ "" := by
  induction l with
  | nil => intro seen m hm; simp [dedupChat] at hm
  | cons h t ih =>
    intro seen m hm
    by_cases hk : h.id ≠ "" ∧ h.id ∉ seen
    · rw [dedupChat, if_pos hk] at hm
      rcases List.mem_cons.mp hm with hm | hm
      · exact hm ▸ hk.1
      · exact ih _ m hm
    · rw [dedupChat, if_neg hk] at hm
      exact ih _ m hm

/-- Insertion keeps exactly the inserted element and the old ones. -/
theorem mem_insertTS (m x : ChatMsg) (l : List ChatMsg) :
    x ∈ insertTS m l ↔ x = m ∨ x ∈ l := by
  induction l with
  | nil => simp [insertTS]
  | cons h t ih =>
    by_cases hc : h.timestamp < m.timestamp
    · rw [insertTS, if_pos hc]
      simp only [List.mem_cons, ih]
      tauto
    · rw [insertTS, if_neg hc]
      simp only [List.mem_cons]

/-- Sorting preserves membership. -/
theorem mem_sortTS (x : ChatMsg) (l : List ChatMsg) :
    x ∈ sortTS l ↔ x ∈ l := by
  induction l with
  | nil => simp [sortTS]
  | cons h t ih => rw [sortTS, mem_insertTS]; simp [ih]

/-- Every message in a merged chat document comes from the dedup pass. -/
theorem mem_mergeChat (x : ChatMsg) (loc rem : List ChatMsg) :
    x ∈ mergeChat loc rem → x ∈ dedupChat [] (loc ++ rem) := by
  intro hx
  unfold mergeChat at hx
  by_cases hlen : 500 < (sortTS (dedupChat [] (loc ++ rem))).length
  · simp only [hlen, if_pos] at hx
    exact (mem_sortTS _ _).mp (List.mem_of_mem_drop hx)
  · simp only [hlen, if_neg, ite_false] at hx
    exact (mem_sortTS _ _).mp hx

/-- `setEntry` preserves a property that holds for the map and the new
binding. -/
theorem setEntry_forall (P : String × Snippet → Prop) (m : List (String × Snippet))
    (k : String) (v : Snippet) (hm : ∀ p ∈ m, P p) (hv : P (k, v)) :
    ∀ p ∈ setEntry m k v, P p := by
  induction m with
  | nil =>
    intro p hp
    rw [setEntry] at hp
    rcases List.mem_singleton.mp hp with hp
    exact hp ▸ hv
  | cons q r ih =>
    intro p hp
    rw [setEntry] at hp
    by_cases hq : q.1 = k
    · rw [if_pos hq] at hp
      rcases List.mem_cons.mp hp with hp | hp
      · exact hp ▸ hv
      · exact hm p (List.mem_cons_of_mem _ hp)
    · rw [if_neg hq] at hp
      rcases List.mem_cons.mp hp with hp | hp
      · exact hp ▸ hm q (List.mem_cons_self _ _)
      · exact ih (fun p hp => hm p (List.mem_cons_of_mem _ hp)) p hp

/-- Every binding produced by the local snippet pass has a non-empty key
that is the id of its snippet. -/
theorem buildLocalSnips_keys (l : List Snippet) :
    ∀ (m : List (String × Snippet)),
      (∀ p ∈ m, p.1 ≠ "" ∧ p.2.id = p.1) →
      ∀ p ∈ buildLocalSnips m l, p.1 ≠ "" ∧ p.2.id = p.1 := by
  induction l with
  | nil => intro m hm; exact hm
  | cons s t ih =>
    intro m hm
    rw [buildLocalSnips]
    by_cases hs : s.id = ""
    · simpa [hs] using ih m hm
    · simp only [hs, if_neg, ite_false]
      exact ih _ (setEntry_forall _ m s.id s hm ⟨hs, rfl⟩)

/-- Every binding produced by the remote snippet pass has a non-empty key
that is the id of its snippet. -/
theorem mergeRemoteSnips_keys (l : List Snippet) :
    ∀ (m : List (String × Snippet)),
      (∀ p ∈ m, p.1 ≠ "" ∧ p.2.id = p.1) →
      ∀ p ∈ mergeRemoteSnips m l, p.1 ≠ "" ∧ p.2.id = p.1 := by
  induction l with
  | nil => intro m hm; exact hm
  | cons s t ih =>
    intro m hm
    rw [mergeRemoteSnips]
    by_cases hs : s.id = ""
    · simpa [hs] using ih m hm
    · simp only [hs, if_neg, ite_false]
      cases hl : lookupEntry m s.id with
      | none =>
        simp only [hl]
        refine ih _ ?_
        intro p hp
        rcases List.mem_append.mp hp with hp | hp
        · exact hm p hp
        · rcases List.mem_singleton.mp hp with hp
          exact hp ▸ ⟨hs, rfl⟩
      | some old =>
        simp only [hl]
        by_cases hu : old.updated_at < s.updated_at
        · simp only [hu, if_pos]
          exact ih _ (setEntry_forall _ m s.id s hm ⟨hs, rfl⟩)
        · simp only [hu, if_neg, ite_false]
          exact ih m hm

/-- Insertion by `created_at` preserves membership. -/
theorem mem_insertCreated (s x : Snippet) (l : List Snippet) :
    x ∈ insertCreated s l ↔ x = s ∨ x ∈ l := by
  induction l with
  | nil => simp [insertCreated]
  | cons h t ih =>
    by_cases hc : h.created_at < s.created_at
    · rw [insertCreated, if_pos hc]
      simp only [List.mem_cons, ih]
      tauto
    · rw [insertCreated, if_neg hc]
      simp only [List.mem_cons]

/-- The snippet sort preserves membership. -/
theorem mem_sortCreated (x : Snippet) (l : List Snippet) :
    x ∈ sortCreated l ↔ x ∈ l := by
  induction l with
  | nil => simp [sortCreated]
  | cons h t ih => rw [sortCreated, mem_insertCreated]; simp [ih]

/-- C9: every element of a merged chat document and of a merged snippets
document has a non-empty id, hence an entry whose id is missing or empty —
local or remote — is absent from the merged result. -/
theorem merge_discards_idless (lc rc : List ChatMsg) (ls rs : List Snippet) :
    (∀ m ∈ mergeChat lc rc, m.id ≠ "") ∧
    (∀ m : ChatMsg, m.id = "" → m ∉ mergeChat lc rc) ∧
    (∀ s ∈ mergeSnippets ls rs, s.id ≠ "") ∧
    (∀ s : Snippet, s.id = "" → s ∉ mergeSnippets ls rs) := by
  have hc : ∀ m ∈ mergeChat lc rc, m.id ≠ "" := fun m hm =>
    dedupChat_id_ne _ [] m (mem_mergeChat m lc rc hm)
  have hsn : ∀ s ∈ mergeSnippets ls rs, s.id ≠ "" := by
    intro s hs
    unfold mergeSnippets at hs
    rcases List.mem_map.mp ((mem_sortCreated _ _).mp hs) with ⟨p, hp, hps⟩
    have hkey := mergeRemoteSnips_keys rs (buildLocalSnips [] ls)
      (buildLocalSnips_keys ls [] (by intro p hp; simp at hp)) p hp
    rw [← hps, hkey.2]
    exact hkey.1
  exact ⟨hc, fun m hid hm => hc m hm hid, hsn, fun s hid hs => hsn s hs hid⟩

-- ──────────────────────────────────────────
-- C10: FileStore fallback behaviour
-- ──────────────────────────────────────────

/-- C10: when the backing file is missing or does not parse as JSON,
`FileStore.read` returns the supplied default (`None` mapped to the empty
object), and `FileStore.update` applies the updater to that same fallback
value and overwrites the file with the serialized result; both are total
functions of the embedding, so neither raises. -/
theorem fileStore_fallback (parse : String → Option Json) (dump : Json → String)
    (file : Option String) (default : Option Json) (updater : Json → Json)
    (hbad : file = none ∨ ∃ content, file = some content ∧ parse content = none) :
    fileStoreRead parse file default = default.getD (Json.obj []) ∧
    fileStoreUpdate parse dump file updater default =
      (updater (default.getD (Json.obj [])),
       some (dump (updater (default.getD (Json.obj []))))) := by
  rcases hbad with hnone | ⟨content, hfile, hparse⟩
  · subst hnone
    exact ⟨rfl, rfl⟩
  · subst hfile
    constructor
    · rw [fileStoreRead, hparse]
    · rw [fileStoreUpdate]
      simp only [hparse]

/-- Witness for C10 at a concrete parser that rejects everything and a
concrete file content. -/
theorem fileStore_fallback_witness :
    fileStoreRead (fun _ => none) (some "oops") (some (Json.num 7)) = Json.num 7 ∧
    fileStoreUpdate (fun _ => none) (fun _ => "out") (some "oops")
        (fun j => Json.arr [j]) (some (Json.num 7)) =
      (Json.arr [Json.num 7], some "out") := by
  have h := fileStore_fallback (fun _ => none) (fun _ => "out") (some "oops")
    (some (Json.num 7)) (fun j => Json.arr [j]) (Or.inr ⟨"oops", rfl, rfl⟩)
  exact ⟨h.1, h.2⟩

-- ──────────────────────────────────────────
-- C2: kicked records absorb in _merge_nodes
-- ──────────────────────────────────────────

/-- C2: a locally kicked record stays kicked through every merge, and the
remote record replaces it only when the remote record is itself kicked
with a strictly greater `kicked_at` (otherwise the local record is kept
verbatim). -/
theorem mergeNodes_kicked_absorbs (loc rem : NodesDoc) (k : String) (li : NodeRec)
    (hl : loc k = some li) (hk : li.trust_status = "kicked") :
    (∃ r, mergeNodes loc rem k = some r ∧ r.trust_status = "kicked") ∧
    (mergeNodes loc rem k = some li ∨
      ∃ ri, rem k = some ri ∧ ri.trust_status = "kicked" ∧
        li.kicked_at < ri.kicked_at ∧ mergeNodes loc rem k = some ri) := by
  have hself : li.trust_status ≠ "self" := by rw [hk]; decide
  cases hr : rem k with
  | none =>
    rw [mergeNodes, hl, hr]
    exact ⟨⟨li, rfl, hk⟩, Or.inl rfl⟩
  | some ri =>
    rw [mergeNodes, hl, hr]
    simp only [mergeNodesAt]
    rw [mergeNodeRec, if_neg hself]
    by_cases hrk : ri.trust_status = "kicked"
    · rw [if_pos hrk, if_neg (by rw [hk]; exact fun h => h rfl)]
      by_cases hlt : li.kicked_at < ri.kicked_at
      · rw [if_pos hlt]
        exact ⟨⟨ri, rfl, hrk⟩, Or.inr ⟨ri, rfl, hrk, hlt, rfl⟩⟩
      · rw [if_neg hlt]
        exact ⟨⟨li, rfl, hk⟩, Or.inl rfl⟩
    · rw [if_neg hrk, if_pos hk]
      exact ⟨⟨li, rfl, hk⟩, Or.inl rfl⟩

/-- Witness for C2: a concrete kicked record against a remote trusted
record with a newer `registered_at`; the kicked record survives. -/
theorem mergeNodes_kicked_absorbs_witness :
    (∃ r, mergeNodes
        (fun k => if k = "a" then some
          { node_id := "a", name := "a", mode := "full", connectable := true
            host := "h", port := 1, public_url := "", registered_at := 5
            public_key := "pk", trust_status := "kicked", kicked_at := 9 } else none)
        (fun k => if k = "a" then some
          { node_id := "a", name := "a", mode := "full", connectable := true
            host := "h", port := 1, public_url := "", registered_at := 50
            public_key := "pk", trust_status := "trusted", kicked_at := 0 } else none)
        "a" = some r ∧ r.trust_status = "kicked") := by
  exact (mergeNodes_kicked_absorbs _ _ "a" _ rfl rfl).1

-- ──────────────────────────────────────────
-- C5: the approve operation
-- ──────────────────────────────────────────

/-- C5, counterexample: approving a `waiting_approval` record succeeds and
mutates the document (the handler only rejects `trusted` and `kicked`
statuses), contradicting "valid only on a `pending` record". -/
theorem approve_counterexample :
    (approveNode 99 "me" (fun k => if k = "w" then some waitingRec else none) "w").1
      = ApproveResult.success ∧
    ((approveNode 99 "me" (fun k => if k = "w" then some waitingRec else none) "w").2 "w")
      = some { waitingRec with trust_status := "trusted", registered_at := 99 } := by
  constructor <;> rfl

/-- C5, amended: approve succeeds exactly on an existing record that is not
the own id of the local node and whose status is neither `trusted` nor `kicked`
(so on `pending` and also `waiting_approval` or residual statuses),
setting `trust_status = trusted` and `registered_at = now` and changing no
other key; invoked on the own id of the node, a missing record, or a
`trusted` or `kicked` record, it returns the corresponding non-success
error or informational result and leaves the nodes document unchanged. -/
theorem approve_spec (now : Int) (selfId : String) (nodes : NodesDoc)
    (node_id : String) :
    (∀ info, node_id ≠ selfId → nodes node_id = some info →
      info.trust_status ≠ "trusted" → info.trust_status ≠ "kicked" →
      (approveNode now selfId nodes node_id).1 = ApproveResult.success ∧
      (approveNode now selfId nodes node_id).2 node_id =
        some { info with trust_status := "trusted", registered_at := now } ∧
      (∀ k, k ≠ node_id → (approveNode now selfId nodes node_id).2 k = nodes k)) ∧
    (node_id = selfId →
      approveNode now selfId nodes node_id =
        (ApproveResult.errCannotApproveSelf, nodes)) ∧
    (node_id ≠ selfId → nodes node_id = none →
      approveNode now selfId nodes node_id = (ApproveResult.errNotFound, nodes)) ∧
    (∀ info, node_id ≠ selfId → nodes node_id = some info →
      info.trust_status = "trusted" →
      approveNode now selfId nodes node_id =
        (ApproveResult.msgAlreadyTrusted, nodes)) ∧
    (∀ info, node_id ≠ selfId → nodes node_id = some info →
      info.trust_status = "kicked" →
      approveNode now selfId nodes node_id = (ApproveResult.errKicked, nodes)) ∧
    ((approveNode now selfId nodes node_id).1 ≠ ApproveResult.success →
      (approveNode now selfId nodes node_id).2 = nodes) := by
  refine ⟨?_, ?_, ?_, ?_, ?_, ?_⟩
  · intro info hne hsome htr hki
    rw [approveNode, if_neg hne, hsome]
    simp only [htr, hki, if_neg, ite_false]
    refine ⟨trivial, ?_, ?_⟩
    · simp
    · intro k hk
      simp [hk]
  · intro hself
    rw [approveNode, if_pos hself]
  · intro hne hnone
    rw [approveNode, if_neg hne, hnone]
  · intro info hne hsome htr
    rw [approveNode, if_neg hne, hsome]
    simp only [htr, if_pos]
  · intro info hne hsome hki
    rw [approveNode, if_neg hne, hsome]
    have htr : info.trust_status ≠ "trusted" := by rw [hki]; decide
    simp only [htr, if_neg, ite_false, hki, if_pos]
    rfl
  · intro hfail
    rw [approveNode] at hfail ⊢
    by_cases h1 : node_id = selfId
    · rw [if_pos h1] at hfail ⊢
    · rw [if_neg h1] at hfail ⊢
      cases hsome : nodes node_id with
      | none => simp [hsome]
      | some info =>
        simp only [hsome] at hfail ⊢
        by_cases h2 : info.trust_status = "trusted"
        · simp [h2]
        · by_cases h3 : info.trust_status = "kicked"
          · simp [h2, h3]
          · simp [h2, h3] at hfail

/-- Witness for C5 (amended): a concrete `pending` record is approved, and
the own-id, missing-record, trusted and kicked invocations each return
their non-success result with the document unchanged. -/
theorem approve_spec_witness :
    ((approveNode 42 "me"
        (fun k => if k = "p" then some { waitingRec with trust_status := "pending" }
         else none) "p").1 = ApproveResult.success ∧
      (approveNode 42 "me"
        (fun k => if k = "p" then some { waitingRec with trust_status := "pending" }
         else none) "p").2 "p" =
        some { waitingRec with trust_status := "trusted", registered_at := 42 }) ∧
    approveNode 42 "me" selfOnlyDoc "me" =
      (ApproveResult.errCannotApproveSelf, selfOnlyDoc) ∧
    approveNode 42 "me" (fun _ => none) "q" =
      (ApproveResult.errNotFound, fun _ => none) ∧
    approveNode 42 "me" dA "k" = (ApproveResult.msgAlreadyTrusted, dA) ∧
    approveNode 42 "me" (nodeDoc (nodeFix "kicked" 5 "K")) "k" =
      (ApproveResult.errKicked, nodeDoc (nodeFix "kicked" 5 "K")) := by
  refine ⟨?_, ?_, ?_, ?_, ?_⟩
  · have h := (approve_spec 42 "me"
      (fun k => if k = "p" then some { waitingRec with trust_status := "pending" }
       else none) "p").1 { waitingRec with trust_status := "pending" }
      (by decide) (by simp) (by decide) (by decide)
    exact ⟨h.1, h.2.1⟩
  · exact (approve_spec 42 "me" selfOnlyDoc "me").2.1 rfl
  · exact (approve_spec 42 "me" (fun _ => none) "q").2.2.1 (by decide) rfl
  · exact (approve_spec 42 "me" dA "k").2.2.2.1 (nodeFix "trusted" 100 "A")
      (by decide) (by simp [dA, nodeDoc]) rfl
  · exact (approve_spec 42 "me" (nodeDoc (nodeFix "kicked" 5 "K")) "k").2.2.2.2.1
      (nodeFix "kicked" 5 "K") (by decide) (by simp [nodeDoc]) rfl

-- ──────────────────────────────────────────
-- C7: tombstones survive merges; the read API hides them
-- ──────────────────────────────────────────

/-- Lookup after `setEntry`. -/
theorem lookupEntry_setEntry (m : List (String × Snippet)) (k k' : String) (v : Snippet) :
    lookupEntry (setEntry m k v) k' = if k = k' then some v else lookupEntry m k' := by
  induction m with
  | nil => simp [setEntry, lookupEntry]
  | cons q r ih =>
    simp only [setEntry, lookupEntry]
    by_cases hq : q.1 = k
    · simp only [hq, if_pos, lookupEntry]
      by_cases hk : k = k'
      · simp [hk]
      · simp [hk, fun h => hk (hq.symm.trans h)]
    · simp only [hq, if_neg, ite_false, lookupEntry]
      by_cases hq' : q.1 = k'
      · simp [hq', if_neg (fun h : k = k' => hq (hq'.trans h.symm))]
      · simp [hq', ih]

/-- Lookup after appending a fresh binding at the end. -/
theorem lookupEntry_append (m : List (String × Snippet)) (k k' : String) (v : Snippet)
    (h : k ≠ k') :
    lookupEntry (m ++ [(k, v)]) k' = lookupEntry m k' := by
  induction m with
  | nil => simp [lookupEntry, h]
  | cons q r ih =>
    rw [List.cons_append, lookupEntry, lookupEntry]
    by_cases hq : q.1 = k'
    · rw [if_pos hq, if_pos hq]
    · rw [if_neg hq, if_neg hq, ih]

/-- The local pass does not touch a key that no listed snippet carries. -/
theorem buildLocalSnips_lookup_frozen (l : List Snippet) :
    ∀ (m : List (String × Snippet)) (key : String),
      (∀ s ∈ l, s.id ≠ key) →
      lookupEntry (buildLocalSnips m l) key = lookupEntry m key := by
  induction l with
  | nil => intro m key _; rfl
  | cons s t ih =>
    intro m key hkey
    rw [buildLocalSnips]
    rw [ih _ key (fun x hx => hkey x (List.mem_cons_of_mem _ hx))]
    by_cases hs : s.id = ""
    · rw [if_pos hs]
    · rw [if_neg hs, lookupEntry_setEntry,
        if_neg (hkey s (List.mem_cons_self _ _))]

/-- A snippet with a unique non-empty id ends up under its own key in the
map built by the local pass. -/
theorem buildLocalSnips_lookup_mem (l : List Snippet) :
    ∀ (m : List (String × Snippet)) (x : Snippet),
      x ∈ l → x.id ≠ "" → (l.map (fun s => s.id)).Nodup →
      lookupEntry (buildLocalSnips m l) x.id = some x := by
  induction l with
  | nil => intro m x hx; simp at hx
  | cons s t ih =>
    intro m x hx hid hnodup
    rw [List.map_cons, List.nodup_cons] at hnodup
    rcases List.mem_cons.mp hx with hx | hx
    · subst hx
      rw [buildLocalSnips, if_neg hid]
      have hfresh : ∀ y ∈ t, y.id ≠ x.id := fun y hy h =>
        hnodup.1 (h ▸ List.mem_map_of_mem _ hy)
      rw [buildLocalSnips_lookup_frozen t _ x.id hfresh, lookupEntry_setEntry,
        if_pos rfl]
    · exact ih _ x hx hid hnodup.2

/-- The remote pass keeps a stored snippet whenever every remote snippet
with the same id has a strictly older `updated_at`. -/
theorem mergeRemoteSnips_keeps (r : List Snippet) :
    ∀ (m : List (String × Snippet)) (key : String) (v : Snippet),
      lookupEntry m key = some v →
      (∀ x ∈ r, x.id = key → x.updated_at < v.updated_at) →
      lookupEntry (mergeRemoteSnips m r) key = some v := by
  induction r with
  | nil => intro m key v hv _; exact hv
  | cons s t ih =>
    intro m key v hv hr
    rw [mergeRemoteSnips]
    by_cases hs : s.id = ""
    · rw [if_pos hs]
      exact ih m key v hv (fun x hx => hr x (List.mem_cons_of_mem _ hx))
    · rw [if_neg hs]
      by_cases hkey : s.id = key
      · have hlt : s.updated_at < v.updated_at :=
          hr s (List.mem_cons_self _ _) hkey
        rw [hkey]
        simp only [hv]
        rw [if_neg (by omega : ¬ v.updated_at < s.updated_at)]
        exact ih m key v hv (fun x hx => hr x (List.mem_cons_of_mem _ hx))
      · cases hl : lookupEntry m s.id with
        | none =>
          simp only [hl]
          refine ih _ key v ?_ (fun x hx => hr x (List.mem_cons_of_mem _ hx))
          rw [lookupEntry_append m s.id key _ hkey]
          exact hv
        | some old =>
          simp only [hl]
          by_cases hu : old.updated_at < s.updated_at
          · rw [if_pos hu]
            refine ih _ key v ?_ (fun x hx => hr x (List.mem_cons_of_mem _ hx))
            rw [lookupEntry_setEntry, if_neg hkey]
            exact hv
          · rw [if_neg hu]
            exact ih m key v hv (fun x hx => hr x (List.mem_cons_of_mem _ hx))

/-- A successfully looked-up value is among the values of the map. -/
theorem lookupEntry_mem_values (m : List (String × Snippet)) (key : String)
    (v : Snippet) (h : lookupEntry m key = some v) : v ∈ m.map Prod.snd := by
  induction m with
  | nil => simp [lookupEntry] at h
  | cons q r ih =>
    rw [lookupEntry] at h
    by_cases hq : q.1 = key
    · rw [if_pos hq] at h
      rcases Option.some.inj h with h
      rw [List.map_cons]
      exact h ▸ List.mem_cons_self _ _
    · rw [if_neg hq] at h
      exact List.mem_cons_of_mem _ (ih h)

/-- Membership through the descending insertion by `created_at`. -/
theorem mem_insertCreatedDesc (s x : Snippet) (l : List Snippet) :
    x ∈ insertCreatedDesc s l ↔ x = s ∨ x ∈ l := by
  induction l with
  | nil => simp [insertCreatedDesc]
  | cons h t ih =>
    by_cases hc : s.created_at < h.created_at
    · rw [insertCreatedDesc, if_pos hc]
      simp only [List.mem_cons, ih]
      tauto
    · rw [insertCreatedDesc, if_neg hc]
      simp only [List.mem_cons]

/-- Membership through the descending sort by `created_at`. -/
theorem mem_sortCreatedDesc (x : Snippet) (l : List Snippet) :
    x ∈ sortCreatedDesc l ↔ x ∈ l := by
  induction l with
  | nil => simp [sortCreatedDesc]
  | cons h t ih => rw [sortCreatedDesc, mem_insertCreatedDesc]; simp [ih]

/-- C7: a local tombstone with `updated_at = T` survives a merge with any
remote list whose entries for that id are all older than `T`, and the
snippets read API never returns a tombstoned entry. -/
theorem tombstone_durable (loc rem : List Snippet) (tomb : Snippet)
    (hmem : tomb ∈ loc) (hdel : tomb.deleted = true) (hid : tomb.id ≠ "")
    (hnodup : (loc.map (fun s => s.id)).Nodup)
    (hrem : ∀ r ∈ rem, r.id = tomb.id → r.updated_at < tomb.updated_at) :
    tomb ∈ mergeSnippets loc rem ∧
    (∀ (sn : List Snippet) (cat : String),
      ∀ x ∈ listSnippets sn cat, x.deleted = false) := by
  constructor
  · rw [mergeSnippets, mem_sortCreated]
    refine lookupEntry_mem_values _ tomb.id tomb ?_
    refine mergeRemoteSnips_keeps rem _ tomb.id tomb ?_
      (fun x hx hxid => hrem x hx hxid)
    exact buildLocalSnips_lookup_mem loc [] tomb hmem hid hnodup
  · intro sn cat x hx
    unfold listSnippets at hx
    have hx' := (mem_sortCreatedDesc _ _).mp hx
    by_cases hc : cat ≠ ""
    · rw [if_pos hc] at hx'
      have := (List.mem_filter.mp (List.mem_filter.mp hx').1).2
      simpa using this
    · rw [if_neg hc] at hx'
      have := (List.mem_filter.mp hx').2
      simpa using this

/-- Witness for C7 at a concrete tombstone and a stale remote copy. -/
theorem tombstone_durable_witness :
    (⟨"s", "gone", "note", true, 1, 10⟩ : Snippet) ∈
      mergeSnippets [⟨"s", "gone", "note", true, 1, 10⟩]
        [⟨"s", "old", "note", false, 1, 5⟩] ∧
    (∀ x ∈ listSnippets [⟨"s", "gone", "note", true, 1, 10⟩] "", x.deleted = false) := by
  have h := tombstone_durable [⟨"s", "gone", "note", true, 1, 10⟩]
    [⟨"s", "old", "note", false, 1, 5⟩] ⟨"s", "gone", "note", true, 1, 10⟩
    (List.mem_singleton.mpr rfl) rfl (by decide) (by decide)
    (by intro r hr _; rcases List.mem_singleton.mp hr with h; subst h; decide)
  exact ⟨h.1, h.2 _ ""⟩

-- ──────────────────────────────────────────
-- C3: self-record stability under remote input
-- ──────────────────────────────────────────

/-- C3, failing input: an unauthenticated `/peer/join-request` carrying the
own id of the local node falls through every status branch of the handler
(`kicked`/`trusted`/`pending` are checked, `self` is not) and overwrites
the self record with a `pending` entry carrying the public key of the
attacker — remote input mutates the self record, violating the claimed
invariant.  `_merge_nodes` itself does preserve the self record (see
`mergeNodes_self_stable`). -/
theorem joinRequest_overwrites_self :
    (joinRequest 99 selfOnlyDoc evilJoinReq).1 = JoinReqResult.statusPendingSaved ∧
    (selfOnlyDoc "me").map (fun r => r.trust_status) = some "self" ∧
    ((joinRequest 99 selfOnlyDoc evilJoinReq).2 "me").map (fun r => r.trust_status)
      = some "pending" ∧
    ((joinRequest 99 selfOnlyDoc evilJoinReq).2 "me").map (fun r => r.public_key)
      = some "evilpk" := by
  refine ⟨rfl, rfl, rfl, rfl⟩

/-- The merge path of C3: `_merge_nodes` never changes a record whose local
`trust_status` is `self`, and it never stores the status `self` at a key
whose local record is not `self` — so a nodes document with at most one
`self` record keeps that property, and keeps the record itself, across any
merge. -/
theorem mergeNodes_self_stable (loc rem : NodesDoc) (k : String) :
    (∀ li, loc k = some li → li.trust_status = "self" →
      mergeNodes loc rem k = some li) ∧
    (∀ r, mergeNodes loc rem k = some r → r.trust_status = "self" →
      loc k = some r) := by
  constructor
  · intro li hl hself
    cases hr : rem k with
    | none => rw [mergeNodes, hl, hr]; rfl
    | some ri =>
      rw [mergeNodes, hl, hr]
      simp only [mergeNodesAt]
      rw [mergeNodeRec, if_pos hself]
  · intro r hm hself
    rw [mergeNodes] at hm
    cases hl : loc k with
    | none =>
      cases hr : rem k with
      | none => rw [hl, hr] at hm; simp [mergeNodesAt] at hm
      | some ri =>
        rw [hl, hr] at hm
        simp only [mergeNodesAt] at hm
        rcases Option.some.inj hm with h
        subst h
        exfalso
        by_cases hrs : ri.trust_status = "self"
        · rw [if_pos hrs] at hself
          simp at hself
        · rw [if_neg hrs] at hself
          exact hrs hself
    | some li =>
      cases hr : rem k with
      | none =>
        rw [hl, hr] at hm
        simp only [mergeNodesAt] at hm
        exact hm
      | some ri =>
        rw [hl, hr] at hm
        simp only [mergeNodesAt] at hm
        rcases Option.some.inj hm with h
        subst h
        by_cases hls : li.trust_status = "self"
        · rw [mergeNodeRec, if_pos hls]
        · exfalso
          rw [mergeNodeRec, if_neg hls] at hself
          split_ifs at hself <;>
            (try simp only [apply_ite NodeRec.trust_status] at hself) <;>
            (try split_ifs at hself) <;> simp_all

/-- The join-poll path of C3: adopting a `join-status` nodes snapshot never
touches the record stored under the local id, and every record it writes
is `trusted`, so it cannot introduce a second `self` record. -/
theorem adoptJoinSnapshot_self_stable (selfId : String) (loc snapshot : NodesDoc) :
    adoptJoinSnapshot selfId loc snapshot selfId = loc selfId ∧
    (∀ k r, k ≠ selfId → adoptJoinSnapshot selfId loc snapshot k = some r →
      r.trust_status = "self" → loc k = some r) := by
  constructor
  · rw [adoptJoinSnapshot]
    simp
  · intro k r hk hr hself
    rw [adoptJoinSnapshot] at hr
    rw [if_neg hk] at hr
    cases hs : snapshot k with
    | none => simp only [hs] at hr; exact hr
    | some ninfo =>
      simp only [hs] at hr
      cases hl : loc k with
      | none =>
        simp only [hl] at hr
        rcases Option.some.inj hr with h
        rw [← h] at hself
        simp at hself
      | some existing =>
        simp only [hl] at hr
        by_cases hw : existing.trust_status = "waiting_approval"
        · rw [if_pos hw] at hr
          rcases Option.some.inj hr with h
          rw [← h] at hself
          simp at hself
        · rw [if_neg hw] at hr
          rw [← hr]

/-- Witness for the positive merge path of C3 at concrete documents: a remote
record claiming `trusted` under the local id does not displace the self
record. -/
theorem mergeNodes_self_stable_witness :
    mergeNodes selfOnlyDoc
      (fun k => if k = "me"
        then some { selfRec with trust_status := "trusted", registered_at := 999 }
        else none) "me" = some selfRec := by
  exact (mergeNodes_self_stable selfOnlyDoc _ "me").1 selfRec rfl rfl

-- ──────────────────────────────────────────
-- C6: sync handler merges first, then delta-filters by `since`
-- ──────────────────────────────────────────

/-- C6, counterexample: with `since = 0` the handler short-circuits the
delta filter and returns the full merged document, so the response holds a
record whose `registered_at` is not greater than `since`. -/
theorem handleSync_counterexample :
    (handleSync "me" 1 zeroRegDocs sinceZeroReq).2.nodes "z" = some zeroRegRec ∧
    ¬ sinceZeroReq.since < zeroRegRec.registered_at := by
  constructor
  · rfl
  · decide

/-- The nodes filter keeps only strictly newer records when `since > 0`. -/
theorem filterNodesSince_mem (nodes : NodesDoc) (since : Int) (k : String)
    (r : NodeRec) (hpos : 0 < since) (h : filterNodesSince nodes since k = some r) :
    nodes k = some r ∧ since < r.registered_at := by
  rw [filterNodesSince, if_neg (by omega)] at h
  cases hn : nodes k with
  | none => simp only [hn] at h; exact absurd h (by simp)
  | some r' =>
    simp only [hn] at h
    by_cases hr : since < r'.registered_at
    · rw [if_pos hr] at h
      exact ⟨h, Option.some.inj h ▸ hr⟩
    · rw [if_neg hr] at h
      exact absurd h (by simp)

/-- The states filter keeps only strictly newer entries when `since > 0`. -/
theorem filterStatesSince_mem (states : StatesDoc) (since : Int) (k : String)
    (r : StateRec) (hpos : 0 < since) (h : filterStatesSince states since k = some r) :
    states k = some r ∧ since < r.last_seen := by
  rw [filterStatesSince, if_neg (by omega)] at h
  cases hn : states k with
  | none => simp only [hn] at h; exact absurd h (by simp)
  | some r' =>
    simp only [hn] at h
    by_cases hr : since < r'.last_seen
    · rw [if_pos hr] at h
      exact ⟨h, Option.some.inj h ▸ hr⟩
    · rw [if_neg hr] at h
      exact absurd h (by simp)

/-- C6, amended: the sync handler writes back exactly the four merged
documents and its response is delta-filtered from that merged state: when
`req.since > 0` every returned node/state/chat/snippet is strictly newer
than `since` (by `registered_at`, `last_seen`, `timestamp`, `updated_at`
respectively); when `req.since ≤ 0` the response carries the full merged
documents. -/
theorem handleSync_spec (selfId : String) (version : Int) (st : Docs)
    (req : SyncRequest) :
    ((handleSync selfId version st req).1.nodes = mergeNodes st.nodes req.nodes ∧
     (handleSync selfId version st req).1.states = mergeStates st.states req.states ∧
     (handleSync selfId version st req).1.chat = mergeChat st.chat req.chat ∧
     (handleSync selfId version st req).1.snippets =
       mergeSnippets st.snippets req.snippets) ∧
    (0 < req.since →
      (∀ k r, (handleSync selfId version st req).2.nodes k = some r →
        mergeNodes st.nodes req.nodes k = some r ∧ req.since < r.registered_at) ∧
      (∀ k r, (handleSync selfId version st req).2.states k = some r →
        mergeStates st.states req.states k = some r ∧ req.since < r.last_seen) ∧
      (∀ m ∈ (handleSync selfId version st req).2.chat, req.since < m.timestamp) ∧
      (∀ sn ∈ (handleSync selfId version st req).2.snippets,
        req.since < sn.updated_at)) ∧
    (req.since ≤ 0 →
      (handleSync selfId version st req).2.nodes = mergeNodes st.nodes req.nodes ∧
      (handleSync selfId version st req).2.states = mergeStates st.states req.states ∧
      (handleSync selfId version st req).2.chat = mergeChat st.chat req.chat ∧
      (handleSync selfId version st req).2.snippets =
        mergeSnippets st.snippets req.snippets) := by
  refine ⟨⟨rfl, rfl, rfl, rfl⟩, ?_, ?_⟩
  · intro hpos
    refine ⟨?_, ?_, ?_, ?_⟩
    · intro k r h
      exact filterNodesSince_mem _ req.since k r hpos h
    · intro k r h
      exact filterStatesSince_mem _ req.since k r hpos h
    · intro m hm
      have : m ∈ filterChatSince (mergeChat st.chat req.chat) req.since := hm
      rw [filterChatSince, if_neg (by omega)] at this
      exact of_decide_eq_true (List.mem_filter.mp this).2
    · intro sn hsn
      have : sn ∈ filterSnippetsSince (mergeSnippets st.snippets req.snippets)
          req.since := hsn
      rw [filterSnippetsSince, if_neg (by omega)] at this
      exact of_decide_eq_true (List.mem_filter.mp this).2
  · intro hle
    refine ⟨?_, ?_, ?_, ?_⟩
    · show filterNodesSince _ req.since = _
      rw [filterNodesSince, if_pos hle]
    · show filterStatesSince _ req.since = _
      rw [filterStatesSince, if_pos hle]
    · show filterChatSince _ req.since = _
      rw [filterChatSince, if_pos hle]
    · show filterSnippetsSince _ req.since = _
      rw [filterSnippetsSince, if_pos hle]

/-- Witness for C6 (amended): a request with `since = 5` against a document
holding a record registered at `10` — the response keeps it and `5 < 10`. -/
theorem handleSync_spec_witness :
    (handleSync "me" 1
        { nodes := fun k => if k = "z" then some { zeroRegRec with registered_at := 10 }
            else none
          states := fun _ => none, chat := [], snippets := [] }
        { sinceZeroReq with since := 5 }).2.nodes "z" =
      some { zeroRegRec with registered_at := 10 } →
    (5 : Int) < ({ zeroRegRec with registered_at := 10 } : NodeRec).registered_at := by
  intro h
  exact ((handleSync_spec "me" 1 _ _).2.1 (by decide)).1 "z" _ h |>.2

-- ──────────────────────────────────────────
-- C4: signed endpoints accept only verified, fresh, trusted requests
-- ──────────────────────────────────────────

/-- If the verifier accepts, then the body hash matched, the timestamp was
parseable and within the 60-second window, the sender was stored with
status `trusted` or `self`, and the signature verified against that stored
public key. -/
theorem verifyNodeSignature_accept (c : Crypto) (now : Int) (nodes : NodesDoc)
    (h : SigHeaders) (dataNodeId : String) (body : List Nat)
    (hacc : (verifyNodeSignature c now nodes h dataNodeId body).1 = true) :
    h.xBodyHash = c.sha256Hex body ∧
    (∃ ts, c.parseFloat h.xNodeTs = some ts ∧ |now - ts| ≤ 60) ∧
    (∃ rn, nodes (senderOf h dataNodeId) = some rn ∧
      (rn.trust_status = "trusted" ∨ rn.trust_status = "self") ∧
      rn.public_key ≠ "" ∧
      c.ecdsaVerify rn.public_key
        (c.signMessage (senderOf h dataNodeId) h.xNodeTs h.xBodyHash)
        h.xNodeSig = true) := by
  rw [verifyNodeSignature] at hacc
  by_cases h1 : senderOf h dataNodeId = ""
  · rw [if_pos h1] at hacc; simp at hacc
  · rw [if_neg h1] at hacc
    by_cases h2 : h.xNodeTs = "" ∨ h.xBodyHash = "" ∨ h.xNodeSig = ""
    · rw [if_pos h2] at hacc; simp at hacc
    · rw [if_neg h2] at hacc
      by_cases h3 : h.xBodyHash ≠ c.sha256Hex body
      · rw [if_pos h3] at hacc; simp at hacc
      · rw [if_neg h3] at hacc
        cases hrn : nodes (senderOf h dataNodeId) with
        | none => simp only [hrn] at hacc; simp at hacc
        | some rn =>
          simp only [hrn] at hacc
          by_cases h4 : rn.trust_status = "kicked"
          · rw [if_pos h4] at hacc; simp at hacc
          · rw [if_neg h4] at hacc
            by_cases h5 : rn.trust_status ≠ "trusted" ∧ rn.trust_status ≠ "self"
            · rw [if_pos h5] at hacc; simp at hacc
            · rw [if_neg h5] at hacc
              by_cases h6 : rn.public_key = ""
              · rw [if_pos h6] at hacc; simp at hacc
              · rw [if_neg h6] at hacc
                by_cases h7 : verifySignatureStatic c now (senderOf h dataNodeId)
                    h.xNodeTs h.xBodyHash h.xNodeSig rn.public_key 60 = true
                · rw [verifySignatureStatic] at h7
                  cases hts : c.parseFloat h.xNodeTs with
                  | none => simp only [hts] at h7; exact absurd h7 (by decide)
                  | some ts =>
                    simp only [hts] at h7
                    by_cases h8 : (60 : Int) < |now - ts|
                    · rw [if_pos h8] at h7; simp at h7
                    · rw [if_neg h8] at h7
                      exact ⟨not_not.mp h3, ⟨ts, rfl, by omega⟩, rn, rfl,
                        (not_and_or.mp h5).imp not_not.mp not_not.mp, h6, h7⟩
                · rw [if_neg h7] at hacc; simp at hacc

/-- A stale timestamp makes `NodeIdentity.verify_signature` fail. -/
theorem verifySignatureStatic_stale (c : Crypto) (now : Int)
    (node_id timestamp body_hash sig pub : String) (ts : Int)
    (hts : c.parseFloat timestamp = some ts) (hold : 60 < |now - ts|) :
    verifySignatureStatic c now node_id timestamp body_hash sig pub 60 = false := by
  rw [verifySignatureStatic]
  simp only [hts]
  rw [if_pos hold]

/-- A stale timestamp makes the whole request verifier fail. -/
theorem verifyNodeSignature_stale (c : Crypto) (now : Int) (nodes : NodesDoc)
    (h : SigHeaders) (dataNodeId : String) (body : List Nat) (ts : Int)
    (hts : c.parseFloat h.xNodeTs = some ts) (hold : 60 < |now - ts|) :
    (verifyNodeSignature c now nodes h dataNodeId body).1 = false := by
  by_cases hv : (verifyNodeSignature c now nodes h dataNodeId body).1 = true
  · exfalso
    rcases (verifyNodeSignature_accept c now nodes h dataNodeId body hv).2.1
      with ⟨ts', hts', hle⟩
    rw [hts] at hts'
    rcases Option.some.inj hts' with heq
    exact absurd hle (not_le.mpr (heq ▸ hold))
  · exact Bool.eq_false_iff.mpr hv

/-- C4: for the three signed endpoints (`sync`, `heartbeat`, `chat-push`):
(1) an accepted request implies the body hash matched `X-Body-Hash`, the
timestamp was within the 60-second window, the sender was recorded as
`trusted` or `self`, and the signature verified against the stored
recorded public key; (2) when verification fails each handler returns 403
with the documents unchanged; (3) a request whose timestamp is more than
60 seconds away from `now` — a replay in particular — always fails
verification, hence is answered 403 without state change. -/
theorem signed_endpoints_spec (c : Crypto) (now : Int) (selfId : String)
    (version : Int) (st : Docs) (h : SigHeaders) (body : List Nat)
    (sreq : SyncRequest) (hreq : HeartbeatReq) (creq : ChatPushReq) :
    (∀ dataNodeId,
      (verifyNodeSignature c now st.nodes h dataNodeId body).1 = true →
      h.xBodyHash = c.sha256Hex body ∧
      (∃ ts, c.parseFloat h.xNodeTs = some ts ∧ |now - ts| ≤ 60) ∧
      (∃ rn, st.nodes (senderOf h dataNodeId) = some rn ∧
        (rn.trust_status = "trusted" ∨ rn.trust_status = "self") ∧
        c.ecdsaVerify rn.public_key
          (c.signMessage (senderOf h dataNodeId) h.xNodeTs h.xBodyHash)
          h.xNodeSig = true)) ∧
    ((verifyNodeSignature c now st.nodes h sreq.node_id body).1 = false →
      peerSyncEndpoint c now selfId version st h sreq body =
        (st, .forbidden (verifyNodeSignature c now st.nodes h sreq.node_id body).2)) ∧
    ((verifyNodeSignature c now st.nodes h hreq.node_id body).1 = false →
      peerHeartbeatEndpoint c now version st h hreq body =
        (st, .forbidden (verifyNodeSignature c now st.nodes h hreq.node_id body).2)) ∧
    ((verifyNodeSignature c now st.nodes h creq.node_id body).1 = false →
      chatPushEndpoint c now st h creq body =
        (st, .forbidden (verifyNodeSignature c now st.nodes h creq.node_id body).2)) ∧
    (∀ ts, c.parseFloat h.xNodeTs = some ts → 60 < |now - ts| →
      ∀ dataNodeId,
        (verifyNodeSignature c now st.nodes h dataNodeId body).1 = false) := by
  refine ⟨?_, ?_, ?_, ?_, ?_⟩
  · intro dataNodeId hacc
    rcases verifyNodeSignature_accept c now st.nodes h dataNodeId body hacc
      with ⟨hh, hts, rn, hrn, htrust, _, hsig⟩
    exact ⟨hh, hts, rn, hrn, htrust, hsig⟩
  · intro hrej
    rw [peerSyncEndpoint]
    simp [hrej]
  · intro hrej
    rw [peerHeartbeatEndpoint]
    simp [hrej]
  · intro hrej
    rw [chatPushEndpoint]
    simp [hrej]
  · intro ts hts hold dataNodeId
    exact verifyNodeSignature_stale c now st.nodes h dataNodeId body ts hts hold

/-- Witness for C4 at a concrete crypto and document set: a replayed
request whose timestamp parses to `1000` seen at `now = 2000` fails
verification, and the sync endpoint answers 403 leaving state unchanged. -/
theorem signed_endpoints_spec_witness :
    (verifyNodeSignature
        { sha256Hex := fun _ => "H", signMessage := fun a b cc => a ++ b ++ cc
          ecdsaVerify := fun _ _ _ => true, parseFloat := fun _ => some 1000 }
        2000 zeroRegDocs.nodes
        { xNodeId := "z", xNodeTs := "1000.0", xBodyHash := "H", xNodeSig := "sig" }
        "z" []).1 = false ∧
    peerSyncEndpoint
        { sha256Hex := fun _ => "H", signMessage := fun a b cc => a ++ b ++ cc
          ecdsaVerify := fun _ _ _ => true, parseFloat := fun _ => some 1000 }
        2000 "me" 1 zeroRegDocs
        { xNodeId := "z", xNodeTs := "1000.0", xBodyHash := "H", xNodeSig := "sig" }
        sinceZeroReq [] =
      (zeroRegDocs, .forbidden (verifyNodeSignature
        { sha256Hex := fun _ => "H", signMessage := fun a b cc => a ++ b ++ cc
          ecdsaVerify := fun _ _ _ => true, parseFloat := fun _ => some 1000 }
        2000 zeroRegDocs.nodes
        { xNodeId := "z", xNodeTs := "1000.0", xBodyHash := "H", xNodeSig := "sig" }
        sinceZeroReq.node_id []).2) := by
  have hrej := (signed_endpoints_spec
    { sha256Hex := fun _ => "H", signMessage := fun a b cc => a ++ b ++ cc
      ecdsaVerify := fun _ _ _ => true, parseFloat := fun _ => some 1000 }
    2000 "me" 1 zeroRegDocs
    { xNodeId := "z", xNodeTs := "1000.0", xBodyHash := "H", xNodeSig := "sig" }
    [] sinceZeroReq
    { node_id := "z", mode := "relay", since := 0, system_info := "" }
    { node_id := "z", message := none }).2.2.2.2 1000 rfl (by decide)
  exact ⟨hrej "z", (signed_endpoints_spec
    { sha256Hex := fun _ => "H", signMessage := fun a b cc => a ++ b ++ cc
      ecdsaVerify := fun _ _ _ => true, parseFloat := fun _ => some 1000 }
    2000 "me" 1 zeroRegDocs
    { xNodeId := "z", xNodeTs := "1000.0", xBodyHash := "H", xNodeSig := "sig" }
    [] sinceZeroReq
    { node_id := "z", mode := "relay", since := 0, system_info := "" }
    { node_id := "z", message := none }).2.1 (hrej sinceZeroReq.node_id)⟩

-- ──────────────────────────────────────────
-- C1: algebraic properties of the four merges
-- ──────────────────────────────────────────

/-- Deduplication splits over an append, threading the seen set. -/
theorem dedupChat_append (l1 l2 : List ChatMsg) :
    ∀ seen, dedupChat seen (l1 ++ l2) =
      dedupChat seen l1 ++ dedupChat (seenAfter seen l1) l2 := by
  induction l1 with
  | nil => intro seen; rfl
  | cons m t ih =>
    intro seen
    rw [List.cons_append, dedupChat, dedupChat, seenAfter]
    by_cases hk : m.id ≠ "" ∧ m.id ∉ seen
    · rw [if_pos hk, if_pos hk, if_pos hk, List.cons_append, ih]
    · rw [if_neg hk, if_neg hk, if_neg hk, ih]

/-- Membership in the accumulated seen set. -/
theorem seenAfter_mem (l : List ChatMsg) :
    ∀ (seen : List String) (i : String),
      i ∈ seenAfter seen l ↔ i ∈ seen ∨ (i ≠ "" ∧ i ∈ l.map (fun m => m.id)) := by
  induction l with
  | nil => intro seen i; simp [seenAfter]
  | cons m t ih =>
    intro seen i
    rw [seenAfter]
    by_cases hk : m.id ≠ "" ∧ m.id ∉ seen
    · rw [if_pos hk, ih]
      simp only [List.mem_cons, List.map_cons]
      constructor
      · rintro ((h | h) | h)
        · exact Or.inr ⟨h ▸ hk.1, Or.inl h⟩
        · exact Or.inl h
        · exact Or.inr ⟨h.1, Or.inr h.2⟩
      · rintro (h | ⟨hne, h | h⟩)
        · exact Or.inl (Or.inr h)
        · exact Or.inl (Or.inl h)
        · exact Or.inr ⟨hne, h⟩
    · rw [if_neg hk, ih]
      simp only [List.mem_cons, List.map_cons]
      rcases not_and_or.mp hk with hk | hk
      · rw [not_not] at hk
        constructor
        · rintro (h | h)
          · exact Or.inl h
          · exact Or.inr ⟨h.1, Or.inr h.2⟩
        · rintro (h | ⟨hne, h | h⟩)
          · exact Or.inl h
          · exact absurd (h.trans hk) hne
          · exact Or.inr ⟨hne, h⟩
      · rw [not_not] at hk
        constructor
        · rintro (h | h)
          · exact Or.inl h
          · exact Or.inr ⟨h.1, Or.inr h.2⟩
        · rintro (h | ⟨hne, h | h⟩)
          · exact Or.inl h
          · exact Or.inl (h ▸ hk)
          · exact Or.inr ⟨hne, h⟩

/-- `dedupChat` depends on the seen list only through membership. -/
theorem dedupChat_congr (l : List ChatMsg) :
    ∀ (s t : List String), (∀ i, i ∈ s ↔ i ∈ t) →
      dedupChat s l = dedupChat t l := by
  induction l with
  | nil => intro s t _; rfl
  | cons m r ih =>
    intro s t hst
    rw [dedupChat, dedupChat]
    by_cases hk : m.id ≠ "" ∧ m.id ∉ s
    · rw [if_pos hk, if_pos ⟨hk.1, fun h => hk.2 ((hst m.id).mpr h)⟩]
      rw [ih (m.id :: s) (m.id :: t) (by intro i; simp [hst i])]
    · rw [if_neg hk, if_neg (by
        rcases not_and_or.mp hk with h | h
        · exact fun hc => h hc.1
        · rw [not_not] at h
          exact fun hc => hc.2 ((hst m.id).mp h))]
      exact ih s t hst

/-- A list of distinct, non-empty, unseen ids passes through `dedupChat`
unchanged. -/
theorem dedupChat_of_fresh (l : List ChatMsg) :
    ∀ (seen : List String),
      (∀ m ∈ l, m.id ≠ "" ∧ m.id ∉ seen) →
      (l.map (fun m => m.id)).Nodup →
      dedupChat seen l = l := by
  induction l with
  | nil => intro seen _ _; rfl
  | cons m t ih =>
    intro seen hfresh hnodup
    rw [List.map_cons, List.nodup_cons] at hnodup
    rw [dedupChat, if_pos (hfresh m (List.mem_cons_self _ _))]
    rw [ih (m.id :: seen) ?_ hnodup.2]
    intro x hx
    refine ⟨(hfresh x (List.mem_cons_of_mem _ hx)).1, ?_⟩
    intro hmem
    rcases List.mem_cons.mp hmem with h | h
    · exact hnodup.1 (h ▸ List.mem_map_of_mem _ hx)
    · exact (hfresh x (List.mem_cons_of_mem _ hx)).2 h

/-- A list all of whose ids are empty or already seen is dropped whole. -/
theorem dedupChat_nil_of_seen (l : List ChatMsg) :
    ∀ (seen : List String),
      (∀ m ∈ l, m.id = "" ∨ m.id ∈ seen) →
      dedupChat seen l = [] := by
  induction l with
  | nil => intro seen _; rfl
  | cons m t ih =>
    intro seen hseen
    rw [dedupChat, if_neg ?_]
    · exact ih seen (fun x hx => hseen x (List.mem_cons_of_mem _ hx))
    · rcases hseen m (List.mem_cons_self _ _) with h | h
      · exact fun hc => hc.1 h
      · exact fun hc => hc.2 h

/-- The ids surviving `dedupChat`: exactly the non-empty unseen ids of the
input. -/
theorem dedupChat_ids_mem (l : List ChatMsg) :
    ∀ (seen : List String) (i : String),
      i ∈ (dedupChat seen l).map (fun m => m.id) ↔
        i ∉ seen ∧ i ≠ "" ∧ i ∈ l.map (fun m => m.id) := by
  induction l with
  | nil => intro seen i; simp [dedupChat]
  | cons m t ih =>
    intro seen i
    rw [dedupChat]
    by_cases hk : m.id ≠ "" ∧ m.id ∉ seen
    · rw [if_pos hk]
      simp only [List.map_cons, List.mem_cons, ih]
      constructor
      · rintro (h | ⟨hs, hne, hmem⟩)
        · exact ⟨h ▸ hk.2, h ▸ hk.1, Or.inl h⟩
        · exact ⟨fun hc => hs (Or.inr hc), hne, Or.inr hmem⟩
      · rintro ⟨hs, hne, h | h⟩
        · exact Or.inl h
        · by_cases hmid : i = m.id
          · exact Or.inl hmid
          · exact Or.inr ⟨fun hc => hc.elim hmid hs, hne, h⟩
    · rw [if_neg hk]
      simp only [List.map_cons, List.mem_cons, ih]
      rcases not_and_or.mp hk with h0 | h0
      · rw [not_not] at h0
        constructor
        · rintro ⟨hs, hne, hmem⟩
          exact ⟨hs, hne, Or.inr hmem⟩
        · rintro ⟨hs, hne, h | h⟩
          · exact absurd (h.trans h0) hne
          · exact ⟨hs, hne, h⟩
      · rw [not_not] at h0
        constructor
        · rintro ⟨hs, hne, hmem⟩
          exact ⟨hs, hne, Or.inr hmem⟩
        · rintro ⟨hs, hne, h | h⟩
          · exact absurd (h ▸ h0) hs
          · exact ⟨hs, hne, h⟩

/-- `dedupChat` never lengthens a list. -/
theorem dedupChat_length_le (l : List ChatMsg) :
    ∀ seen, (dedupChat seen l).length ≤ l.length := by
  induction l with
  | nil => intro seen; simp [dedupChat]
  | cons m t ih =>
    intro seen
    rw [dedupChat]
    by_cases hk : m.id ≠ "" ∧ m.id ∉ seen
    · rw [if_pos hk, List.length_cons, List.length_cons]
      exact Nat.succ_le_succ (ih _)
    · rw [if_neg hk, List.length_cons]
      exact Nat.le_succ_of_le (ih _)

/-- Ids kept by `dedupChat` are outside the seen set and `Nodup`. -/
theorem dedupChat_ids_nodup (l : List ChatMsg) :
    ∀ seen, ((dedupChat seen l).map (fun m => m.id)).Nodup := by
  induction l with
  | nil => intro seen; simp [dedupChat]
  | cons m t ih =>
    intro seen
    rw [dedupChat]
    by_cases hk : m.id ≠ "" ∧ m.id ∉ seen
    · rw [if_pos hk, List.map_cons, List.nodup_cons]
      refine ⟨?_, ih _⟩
      intro hmem
      exact ((dedupChat_ids_mem t (m.id :: seen) m.id).mp hmem).1
        (List.mem_cons_self _ _)
    · rw [if_neg hk]
      exact ih _

/-- Seeding `dedupChat` with extra ids `s` is the same as deduplicating
and then filtering those ids out. -/
theorem dedupChat_filter_seen (l : List ChatMsg) :
    ∀ (s t : List String),
      dedupChat (s ++ t) l =
        (dedupChat t l).filter (fun m => decide (m.id ∉ s)) := by
  induction l with
  | nil => intro s t; rfl
  | cons m r ih =>
    intro s t
    rw [dedupChat, dedupChat]
    by_cases hmt : m.id = "" ∨ m.id ∈ t
    · rw [if_neg (show ¬(m.id ≠ "" ∧ m.id ∉ s ++ t) by
        rcases hmt with h | h
        · exact fun hc => hc.1 h
        · exact fun hc => hc.2 (List.mem_append.mpr (Or.inr h)))]
      rw [if_neg (show ¬(m.id ≠ "" ∧ m.id ∉ t) by
        rcases hmt with h | h
        · exact fun hc => hc.1 h
        · exact fun hc => hc.2 h)]
      exact ih s t
    · push_neg at hmt
      by_cases hms : m.id ∈ s
      · rw [if_neg (show ¬(m.id ≠ "" ∧ m.id ∉ s ++ t) from
          fun hc => hc.2 (List.mem_append.mpr (Or.inl hms)))]
        rw [if_pos (show m.id ≠ "" ∧ m.id ∉ t from ⟨hmt.1, hmt.2⟩)]
        rw [List.filter_cons, if_neg (by simp [hms])]
        rw [← ih s (m.id :: t)]
        refine dedupChat_congr r _ _ ?_
        intro i
        simp only [List.mem_append, List.mem_cons]
        constructor
        · rintro (h | h)
          · exact Or.inl h
          · exact Or.inr (Or.inr h)
        · rintro (h | h | h)
          · exact Or.inl h
          · exact Or.inl (h ▸ hms)
          · exact Or.inr h
      · rw [if_pos (show m.id ≠ "" ∧ m.id ∉ s ++ t from
          ⟨hmt.1, fun hc => (List.mem_append.mp hc).elim hms hmt.2⟩)]
        rw [if_pos (show m.id ≠ "" ∧ m.id ∉ t from ⟨hmt.1, hmt.2⟩)]
        rw [List.filter_cons, if_pos (by simp [hms])]
        rw [← ih s (m.id :: t)]
        rw [dedupChat_congr r (m.id :: (s ++ t)) (s ++ m.id :: t)
          (by intro i; simp only [List.mem_append, List.mem_cons]; tauto)]

/-- `insertTS` is a permutation of consing. -/
theorem insertTS_perm (m : ChatMsg) (l : List ChatMsg) :
    (insertTS m l).Perm (m :: l) := by
  induction l with
  | nil => simp [insertTS]
  | cons h t ih =>
    rw [insertTS]
    by_cases hc : h.timestamp < m.timestamp
    · rw [if_pos hc]
      exact (List.Perm.cons h ih).trans (List.Perm.swap m h t)
    · rw [if_neg hc]

/-- `sortTS` permutes its input. -/
theorem sortTS_perm (l : List ChatMsg) : (sortTS l).Perm l := by
  induction l with
  | nil => simp [sortTS]
  | cons m t ih =>
    rw [sortTS]
    exact (insertTS_perm m (sortTS t)).trans (List.Perm.cons m ih)

/-- `insertTS` preserves sortedness by timestamp. -/
theorem insertTS_sorted (m : ChatMsg) (l : List ChatMsg)
    (hl : l.Pairwise (fun a b => a.timestamp ≤ b.timestamp)) :
    (insertTS m l).Pairwise (fun a b => a.timestamp ≤ b.timestamp) := by
  induction l with
  | nil => simp [insertTS]
  | cons h t ih =>
    rw [List.pairwise_cons] at hl
    rw [insertTS]
    by_cases hc : h.timestamp < m.timestamp
    · rw [if_pos hc]
      rw [List.pairwise_cons]
      refine ⟨?_, ih hl.2⟩
      intro x hx
      rcases (insertTS_perm m t).mem_iff.mp hx with h1
      rcases List.mem_cons.mp h1 with h1 | h1
      · exact h1 ▸ le_of_lt hc
      · exact hl.1 x h1
    · rw [if_neg hc]
      push_neg at hc
      rw [List.pairwise_cons]
      refine ⟨?_, List.pairwise_cons.mpr hl⟩
      intro x hx
      rcases List.mem_cons.mp hx with h1 | h1
      · exact h1 ▸ hc
      · exact le_trans hc (hl.1 x h1)

/-- `sortTS` sorts by timestamp. -/
theorem sortTS_sorted (l : List ChatMsg) :
    (sortTS l).Pairwise (fun a b => a.timestamp ≤ b.timestamp) := by
  induction l with
  | nil => simp [sortTS]
  | cons m t ih => exact insertTS_sorted m (sortTS t) ih

/-- A list already sorted by timestamp is fixed by `sortTS` (the way the stable Python sort leaves
stable sort applied to a sorted list). -/
theorem sortTS_of_sorted (l : List ChatMsg)
    (hl : l.Pairwise (fun a b => a.timestamp ≤ b.timestamp)) :
    sortTS l = l := by
  induction l with
  | nil => rfl
  | cons m t ih =>
    rw [List.pairwise_cons] at hl
    rw [sortTS, ih hl.2]
    cases t with
    | nil => rfl
    | cons h r =>
      rw [insertTS, if_neg (not_lt.mpr (hl.1 h (List.mem_cons_self _ _)))]

/-- Sorting twice is sorting once. -/
theorem sortTS_idem (l : List ChatMsg) : sortTS (sortTS l) = sortTS l :=
  sortTS_of_sorted _ (sortTS_sorted l)

/-- Two insertions with strictly distinct timestamps commute. -/
theorem insertTS_comm (h m : ChatMsg) (hlt : h.timestamp < m.timestamp)
    (l : List ChatMsg) :
    insertTS h (insertTS m l) = insertTS m (insertTS h l) := by
  induction l with
  | nil =>
    rw [insertTS, insertTS, insertTS, if_neg (by omega), insertTS, if_pos hlt,
      insertTS]
  | cons a t ih =>
    by_cases ham : a.timestamp < m.timestamp
    · by_cases ha : a.timestamp < h.timestamp
      · conv_lhs => rw [insertTS, if_pos ham, insertTS, if_pos ha]
        conv_rhs => rw [insertTS, if_pos ha, insertTS, if_pos ham]
        rw [ih]
      · conv_lhs => rw [insertTS, if_pos ham, insertTS, if_neg ha]
        conv_rhs => rw [insertTS, if_neg ha, insertTS, if_pos hlt, insertTS,
          if_pos ham]
    · have ha : ¬ a.timestamp < h.timestamp := by omega
      conv_lhs => rw [insertTS, if_neg ham, insertTS,
        if_neg (show ¬ m.timestamp < h.timestamp by omega)]
      conv_rhs => rw [insertTS, if_neg ha, insertTS, if_pos hlt, insertTS,
        if_neg ham]

/-- Sorting after inserting at the front of an append. -/
theorem sortTS_insert_append (m : ChatMsg) (u b : List ChatMsg) :
    sortTS (insertTS m u ++ b) = insertTS m (sortTS (u ++ b)) := by
  induction u with
  | nil => rw [insertTS, List.cons_append, sortTS]
  | cons h t ih =>
    rw [insertTS]
    by_cases hc : h.timestamp < m.timestamp
    · rw [if_pos hc, List.cons_append, sortTS, ih, List.cons_append, sortTS,
        insertTS_comm h m hc]
    · rw [if_neg hc, List.cons_append, sortTS, List.cons_append, sortTS]

/-- Pre-sorting a prefix does not change a stable sort. -/
theorem sortTS_sort_append (a b : List ChatMsg) :
    sortTS (sortTS a ++ b) = sortTS (a ++ b) := by
  induction a with
  | nil => rfl
  | cons h t ih =>
    rw [sortTS, sortTS_insert_append, ih, List.cons_append, sortTS]

/-- Pre-sorting a suffix does not change a stable sort. -/
theorem sortTS_append_sort (a b : List ChatMsg) :
    sortTS (a ++ sortTS b) = sortTS (a ++ b) := by
  induction a with
  | nil => exact sortTS_idem b
  | cons h t ih =>
    rw [List.cons_append, List.cons_append, sortTS, sortTS, ih]

/-- Filtering commutes with insertion into a sorted list. -/
theorem filter_insertTS (p : ChatMsg → Bool) (m : ChatMsg) (l : List ChatMsg)
    (hl : l.Pairwise (fun a b => a.timestamp ≤ b.timestamp)) :
    (insertTS m l).filter p =
      if p m then insertTS m (l.filter p) else l.filter p := by
  induction l with
  | nil =>
    rw [insertTS, List.filter_cons, List.filter_nil]
    by_cases hp : p m
    · rw [if_pos hp, if_pos hp, insertTS]
    · rw [if_neg hp, if_neg hp]
  | cons a t ih =>
    rw [List.pairwise_cons] at hl
    rw [insertTS]
    by_cases hc : a.timestamp < m.timestamp
    · rw [if_pos hc, List.filter_cons, List.filter_cons]
      by_cases hpa : p a
      · rw [if_pos hpa, if_pos hpa, ih hl.2]
        by_cases hpm : p m
        · rw [if_pos hpm, if_pos hpm, insertTS, if_pos hc]
        · rw [if_neg hpm, if_neg hpm]
      · rw [if_neg hpa, if_neg hpa, ih hl.2]
    · rw [if_neg hc, List.filter_cons]
      by_cases hpm : p m
      · rw [if_pos hpm, if_pos hpm]
        have hhead : ∀ x ∈ (a :: t).filter p, ¬ x.timestamp < m.timestamp := by
          intro x hx
          rcases List.mem_filter.mp hx with ⟨hx, _⟩
          rcases List.mem_cons.mp hx with hx | hx
          · exact hx ▸ hc
          · push_neg at hc
            exact not_lt.mpr (le_trans hc (hl.1 x hx))
        cases hfa : (a :: t).filter p with
        | nil => rw [insertTS]
        | cons y ys =>
          rw [insertTS, if_neg (hhead y (hfa ▸ List.mem_cons_self _ _))]
      · rw [if_neg hpm, if_neg hpm]

/-- Filtering commutes with the stable sort. -/
theorem filter_sortTS (p : ChatMsg → Bool) (l : List ChatMsg) :
    (sortTS l).filter p = sortTS (l.filter p) := by
  induction l with
  | nil => rfl
  | cons m t ih =>
    rw [sortTS, filter_insertTS p m (sortTS t) (sortTS_sorted t), ih,
      List.filter_cons]
    by_cases hp : p m
    · rw [if_pos hp, if_pos hp, sortTS]
    · rw [if_neg hp, if_neg hp]

/-- `sortTS` preserves length. -/
theorem sortTS_length (l : List ChatMsg) : (sortTS l).length = l.length :=
  (sortTS_perm l).length_eq

/-- A sorted dedup output passes through `dedupChat []` unchanged. -/
theorem dedupChat_sort_dedup (s : List String) (l : List ChatMsg) :
    dedupChat [] (sortTS (dedupChat s l)) = sortTS (dedupChat s l) := by
  refine dedupChat_of_fresh _ [] ?_ ?_
  · intro m hm
    exact ⟨dedupChat_id_ne l s m ((sortTS_perm _).mem_iff.mp hm),
      List.not_mem_nil _⟩
  · exact (((sortTS_perm (dedupChat s l)).map (fun m => m.id)).nodup_iff).mpr
      (dedupChat_ids_nodup l s)

/-- Sorting a dedup output does not change the id set it announces as
seen. -/
theorem seenAfter_sort_dedup (l : List ChatMsg) (i : String) :
    i ∈ seenAfter [] (sortTS (dedupChat [] l)) ↔ i ∈ seenAfter [] l := by
  rw [seenAfter_mem, seenAfter_mem]
  simp only [List.not_mem_nil, false_or]
  constructor
  · rintro ⟨hne, hmem⟩
    rcases List.mem_map.mp hmem with ⟨m, hm, hmi⟩
    have hm' := (sortTS_perm _).mem_iff.mp hm
    have := (dedupChat_ids_mem l [] i).mp
      (hmi ▸ List.mem_map_of_mem _ hm')
    exact ⟨hne, this.2.2⟩
  · rintro ⟨hne, hmem⟩
    refine ⟨hne, ?_⟩
    rcases List.mem_map.mp ((dedupChat_ids_mem l [] i).mpr
      ⟨List.not_mem_nil _, hne, hmem⟩) with ⟨m, hm, hmi⟩
    exact hmi ▸ List.mem_map_of_mem _ ((sortTS_perm _).mem_iff.mpr hm)

/-- `_merge_chat` restricted to uncapped documents is the canonical
dedup-then-sort of the concatenation. -/
theorem mergeChat_of_bounded (x y : List ChatMsg)
    (hlen : x.length + y.length ≤ 500) :
    mergeChat x y = sortTS (dedupChat [] (x ++ y)) := by
  simp only [mergeChat]
  rw [if_neg ?_]
  have h1 := dedupChat_length_le (x ++ y) []
  rw [List.length_append] at h1
  rw [sortTS_length]
  omega

/-- `_merge_chat` is idempotent on canonical documents: sorted by
timestamp, distinct non-empty ids, at most 500 messages. -/
theorem mergeChat_self (x : List ChatMsg)
    (hids : ∀ m ∈ x, m.id ≠ "")
    (hnodup : (x.map (fun m => m.id)).Nodup)
    (hsort : x.Pairwise (fun a b => a.timestamp ≤ b.timestamp))
    (hlen : x.length ≤ 500) :
    mergeChat x x = x := by
  have hded : dedupChat [] (x ++ x) = x := by
    rw [dedupChat_append,
      dedupChat_of_fresh x [] (fun m hm => ⟨hids m hm, List.not_mem_nil _⟩) hnodup,
      dedupChat_nil_of_seen x _ (fun m hm => Or.inr ((seenAfter_mem x [] m.id).mpr
        (Or.inr ⟨hids m hm, List.mem_map_of_mem _ hm⟩))),
      List.append_nil]
  simp only [mergeChat]
  rw [hded, sortTS_of_sorted x hsort, if_neg (by omega)]

/-- `_merge_chat` is associative whenever the three documents jointly hold
at most 500 messages (so the cap never truncates). -/
theorem mergeChat_assoc_of_bounded (x y z : List ChatMsg)
    (hlen : x.length + y.length + z.length ≤ 500) :
    mergeChat (mergeChat x y) z = mergeChat x (mergeChat y z) := by
  have hdxy := dedupChat_length_le (x ++ y) []
  have hdyz := dedupChat_length_le (y ++ z) []
  rw [List.length_append] at hdxy hdyz
  have hmxy : mergeChat x y = sortTS (dedupChat [] (x ++ y)) :=
    mergeChat_of_bounded x y (by omega)
  have hmyz : mergeChat y z = sortTS (dedupChat [] (y ++ z)) :=
    mergeChat_of_bounded y z (by omega)
  rw [hmxy, hmyz]
  rw [mergeChat_of_bounded _ z (by rw [sortTS_length]; omega),
    mergeChat_of_bounded x _ (by rw [sortTS_length]; omega)]
  rw [dedupChat_append (sortTS (dedupChat [] (x ++ y))) z,
    dedupChat_sort_dedup [] (x ++ y),
    dedupChat_congr z _ _ (seenAfter_sort_dedup (x ++ y)),
    sortTS_sort_append,
    ← dedupChat_append (x ++ y) z]
  rw [dedupChat_append x (sortTS (dedupChat [] (y ++ z)))]
  have hsfix : dedupChat [] (sortTS (dedupChat [] (y ++ z))) =
      sortTS (dedupChat [] (y ++ z)) := dedupChat_sort_dedup [] (y ++ z)
  have hfs := dedupChat_filter_seen (sortTS (dedupChat [] (y ++ z)))
    (seenAfter [] x) []
  rw [List.append_nil, hsfix] at hfs
  have hbk := dedupChat_filter_seen (y ++ z) (seenAfter [] x) []
  rw [List.append_nil] at hbk
  rw [hfs, filter_sortTS, sortTS_append_sort, ← hbk,
    ← dedupChat_append x (y ++ z), List.append_assoc]

/-- `_merge_nodes` is idempotent. -/
theorem mergeNodes_self (x : NodesDoc) : mergeNodes x x = x := by
  funext k
  rw [mergeNodes]
  cases hx : x k with
  | none => rfl
  | some li =>
    simp only [mergeNodesAt]
    congr 1
    rw [mergeNodeRec]
    split_ifs <;> simp_all

/-- `_merge_states` is idempotent. -/
theorem mergeStates_self (x : StatesDoc) : mergeStates x x = x := by
  funext k
  rw [mergeStates]
  cases hx : x k with
  | none => rfl
  | some li => simp [mergeStatesAt]

/-- `_merge_states` is associative: per key it keeps the entry with the
greatest `last_seen`, preferring the local side on ties. -/
theorem mergeStates_assoc (a b c : StatesDoc) :
    mergeStates (mergeStates a b) c = mergeStates a (mergeStates b c) := by
  funext k
  rw [mergeStates, mergeStates, mergeStates, mergeStates]
  cases a k <;> cases b k <;> cases c k <;>
    simp only [mergeStatesAt] <;> (try split_ifs) <;> first | rfl | omega

/-- Snippets with fresh distinct ids pass the local map pass as plain
key-value bindings in order. -/
theorem buildLocalSnips_of_fresh (x : List Snippet) :
    ∀ (m : List (String × Snippet)),
      (∀ s ∈ x, s.id ≠ "" ∧ s.id ∉ m.map Prod.fst) →
      (x.map (fun s => s.id)).Nodup →
      buildLocalSnips m x = m ++ x.map (fun s => (s.id, s)) := by
  induction x with
  | nil => intro m _ _; simp [buildLocalSnips]
  | cons s t ih =>
    intro m hfresh hnodup
    rw [List.map_cons, List.nodup_cons] at hnodup
    rw [buildLocalSnips, if_neg (hfresh s (List.mem_cons_self _ _)).1]
    have hset : setEntry m s.id s = m ++ [(s.id, s)] := by
      have hnm := (hfresh s (List.mem_cons_self _ _)).2
      clear hfresh hnodup ih
      induction m with
      | nil => rfl
      | cons q r ihm =>
        rw [List.map_cons, List.mem_cons] at hnm
        push_neg at hnm
        rw [setEntry, if_neg (fun h => hnm.1 h.symm), ihm hnm.2]
        rfl
    have hfr : ∀ q ∈ t, q.id ≠ "" ∧ q.id ∉ (m ++ [(s.id, s)]).map Prod.fst := by
      intro q hq
      refine ⟨(hfresh q (List.mem_cons_of_mem _ hq)).1, ?_⟩
      rw [List.map_append, List.mem_append]
      rintro (h | h)
      · exact (hfresh q (List.mem_cons_of_mem _ hq)).2 h
      · simp only [List.map_cons, List.map_nil, List.mem_singleton] at h
        exact hnodup.1 (h ▸ List.mem_map_of_mem _ hq)
    rw [hset, ih (m ++ [(s.id, s)]) hfr hnodup.2, List.append_assoc,
      List.singleton_append, List.map_cons]

/-- The remote pass is a no-op when every remote snippet is already stored
with an `updated_at` at least as new. -/
theorem mergeRemoteSnips_noop (r : List Snippet) :
    ∀ (m : List (String × Snippet)),
      (∀ s ∈ r, s.id ≠ "" →
        ∃ old, lookupEntry m s.id = some old ∧ ¬ old.updated_at < s.updated_at) →
      mergeRemoteSnips m r = m := by
  induction r with
  | nil => intro m _; rfl
  | cons s t ih =>
    intro m hm
    rw [mergeRemoteSnips]
    by_cases hs : s.id = ""
    · rw [if_pos hs]
      exact ih m (fun q hq => hm q (List.mem_cons_of_mem _ hq))
    · rw [if_neg hs]
      rcases hm s (List.mem_cons_self _ _) hs with ⟨old, hold, hlt⟩
      simp only [hold, if_neg hlt, ite_false]
      exact ih m (fun q hq => hm q (List.mem_cons_of_mem _ hq))

/-- A sorted snippet list is fixed by the final sort of the merge. -/
theorem sortCreated_of_sorted (l : List Snippet)
    (hl : l.Pairwise (fun a b => a.created_at ≤ b.created_at)) :
    sortCreated l = l := by
  induction l with
  | nil => rfl
  | cons m t ih =>
    rw [List.pairwise_cons] at hl
    rw [sortCreated, ih hl.2]
    cases t with
    | nil => rfl
    | cons h r =>
      rw [insertCreated, if_neg (not_lt.mpr (hl.1 h (List.mem_cons_self _ _)))]

/-- `_merge_snippets` is idempotent on canonical documents: sorted by
`created_at` with distinct non-empty ids. -/
theorem mergeSnippets_self (x : List Snippet)
    (hids : ∀ s ∈ x, s.id ≠ "")
    (hnodup : (x.map (fun s => s.id)).Nodup)
    (hsort : x.Pairwise (fun a b => a.created_at ≤ b.created_at)) :
    mergeSnippets x x = x := by
  have hbuild : buildLocalSnips [] x = x.map (fun s => (s.id, s)) := by
    rw [buildLocalSnips_of_fresh x [] (fun s hs => ⟨hids s hs, by simp⟩) hnodup,
      List.nil_append]
  rw [mergeSnippets, hbuild]
  rw [mergeRemoteSnips_noop x _ ?_]
  · have hvals : (x.map (fun s => (s.id, s))).map Prod.snd = x := by
      rw [List.map_map]
      exact List.map_id x
    rw [hvals]
    exact sortCreated_of_sorted x hsort
  · intro s hs _
    refine ⟨s, ?_, by omega⟩
    rw [← hbuild]
    exact buildLocalSnips_lookup_mem x [] s hs (hids s hs) hnodup

/-- C1, counterexample: none of the claimed identities holds in general.
`_merge_chat` and `_merge_snippets` are not idempotent (they re-sort their
input), no merge is commutative (ties and id collisions are resolved
toward the local side), and `_merge_nodes` and `_merge_snippets` are not
associative (trust-rule order and dict insertion order leak into the
result). -/
theorem merge_algebra_counterexample :
    mergeChat [cxA, cxB] [cxA, cxB] ≠ [cxA, cxB] ∧
    mergeChat [cxA1] [cxA2] ≠ mergeChat [cxA2] [cxA1] ∧
    mergeStates stX stY "k" ≠ mergeStates stY stX "k" ∧
    mergeNodes dP dW "k" ≠ mergeNodes dW dP "k" ∧
    mergeNodes (mergeNodes dA dB) dC "k" ≠ mergeNodes dA (mergeNodes dB dC) "k" ∧
    mergeSnippets [su, sv] [su, sv] ≠ [su, sv] ∧
    mergeSnippets [sp1] [sp2] ≠ mergeSnippets [sp2] [sp1] ∧
    mergeSnippets (mergeSnippets [su, sv] []) [su2] ≠
      mergeSnippets [su, sv] (mergeSnippets [] [su2]) := by
  refine ⟨by decide, by decide, by decide, by decide, by decide, by decide,
    by decide, by decide⟩

/-- C1, amended: what does hold of the four merges.  `_merge_nodes` and
`_merge_states` are idempotent on every document, and `_merge_states` is
associative.  `_merge_chat` is idempotent on canonical documents (sorted
by timestamp, distinct non-empty ids, within the 500 cap) and associative
whenever the three documents jointly hold at most 500 messages.
`_merge_snippets` is idempotent on canonical documents (sorted by
`created_at`, distinct non-empty ids). -/
theorem merge_algebra_amended :
    (∀ x : NodesDoc, mergeNodes x x = x) ∧
    (∀ x : StatesDoc, mergeStates x x = x) ∧
    (∀ a b c : StatesDoc,
      mergeStates (mergeStates a b) c = mergeStates a (mergeStates b c)) ∧
    (∀ x : List ChatMsg, (∀ m ∈ x, m.id ≠ "") →
      (x.map (fun m => m.id)).Nodup →
      x.Pairwise (fun a b => a.timestamp ≤ b.timestamp) →
      x.length ≤ 500 → mergeChat x x = x) ∧
    (∀ x y z : List ChatMsg, x.length + y.length + z.length ≤ 500 →
      mergeChat (mergeChat x y) z = mergeChat x (mergeChat y z)) ∧
    (∀ x : List Snippet, (∀ s ∈ x, s.id ≠ "") →
      (x.map (fun s => s.id)).Nodup →
      x.Pairwise (fun a b => a.created_at ≤ b.created_at) →
      mergeSnippets x x = x) :=
  ⟨mergeNodes_self, mergeStates_self, mergeStates_assoc,
    mergeChat_self, mergeChat_assoc_of_bounded, mergeSnippets_self⟩

/-- Witness for C1 (amended) at concrete canonical documents. -/
theorem merge_algebra_amended_witness :
    mergeChat [cxB, cxA] [cxB, cxA] = [cxB, cxA] ∧
    mergeChat (mergeChat [cxA] [cxB]) [] = mergeChat [cxA] (mergeChat [cxB] []) ∧
    mergeSnippets [sv, su] [sv, su] = [sv, su] ∧
    mergeNodes dA dA = dA := by
  refine ⟨?_, ?_, ?_, ?_⟩
  · exact merge_algebra_amended.2.2.2.1 [cxB, cxA] (by decide) (by decide)
      (by decide) (by decide)
  · exact merge_algebra_amended.2.2.2.2.1 [cxA] [cxB] [] (by decide)
  · exact merge_algebra_amended.2.2.2.2.2 [sv, su] (by decide) (by decide)
      (by decide)
  · exact merge_algebra_amended.1 dA

end ServerFarm
